import Mathlib

/-!
# external-dns-efficientip-webhook: the EfficientIP provider

A shallow embedding of `internal/efficientip/efficientip.go`.

* Go strings are Lean `String`s; a Go `error` is the `String` of its message, and a
  `(value, error)` result is a pair whose second component is `none` for a `nil` error.
* The SOLIDserver SDK (`sdsclient`) is an external dependency: a call to it is a field of
  `EfficientIPAPI` that maps the request to the envelope and to the text of `err.Error()`,
  which the program reads after every call (the empty text stands for "no error").
* An `EfficientipClient` is any implementation of the Go interface; its methods thread an
  explicit state `σ` (the backend and whatever else the implementation keeps).
* Log output is not part of the modelled state.
-/

set_option autoImplicit false

namespace EfficientIP

/-! ## `fmt.Sprintf` with string operands -/

namespace Fmt

/-- Where the scanner of `doPrintf` stands inside the format string. -/
inductive Mode where
  /-- Outside a directive. -/
  | text
  /-- After `%`, reading flags. -/
  | flags (minus zero : Bool)
  /-- Reading the decimal width. -/
  | width (minus zero : Bool) (wid : Nat)
  /-- After `.`, reading the decimal precision. -/
  | precision (minus zero : Bool) (wid : Option Nat) (prec : Nat)
  deriving DecidableEq, Repr

/-- Scanner state: the output buffer, the operands not yet consumed, the mode. -/
structure State where
  buf : List Char
  args : List String
  mode : Mode
  deriving DecidableEq, Repr

/-- Is `c` a decimal digit. -/
def isDigit (c : Char) : Bool := decide ('0' ≤ c) && decide (c ≤ '9')

/-- Value of a decimal digit. -/
def digitVal (c : Char) : Nat := c.toNat - '0'.toNat

/-- Padding of `fmt.pad`: to `wid` runes, on the left unless the `-` flag is set. -/
def pad (minus zero : Bool) (wid : Option Nat) (s : List Char) : List Char :=
  match wid with
  | none => s
  | some w =>
    let fill := List.replicate (w - s.length) (if zero && !minus then '0' else ' ')
    if minus then s ++ fill else fill ++ s

/-- One operand printed under `verb` (`printArg` for a string operand): `%s` and `%v` print
the string, truncated to the precision and padded to the width; a verb that is not defined
for strings prints Go's bad-verb form. -/
def printArg (verb : Char) (minus zero : Bool) (wid prec : Option Nat) (arg : String) :
    List Char :=
  if verb = 's' ∨ verb = 'v' then
    pad minus zero wid (match prec with
      | none => arg.toList
      | some n => arg.toList.take n)
  else
    "%!".toList ++ [verb] ++ "(string=".toList ++ arg.toList ++ [')']

/-- The verb character `c` has been reached: `%%` prints a percent sign and absorbs no
operand; a verb with no operand left prints `%!c(MISSING)`; otherwise the next operand is
printed. -/
def verb (st : State) (c : Char) (minus zero : Bool) (wid prec : Option Nat) : State :=
  if c = '%' then
    { st with buf := st.buf ++ ['%'], mode := Mode.text }
  else
    match st.args with
    | [] => { st with buf := st.buf ++ "%!".toList ++ [c] ++ "(MISSING)".toList,
                      mode := Mode.text }
    | a :: rest => { buf := st.buf ++ printArg c minus zero wid prec a, args := rest,
                     mode := Mode.text }

/-- One character of the format string. -/
def step (st : State) (c : Char) : State :=
  match st.mode with
  | Mode.text =>
    if c = '%' then { st with mode := Mode.flags false false }
    else { st with buf := st.buf ++ [c] }
  | Mode.flags minus zero =>
    if c = '#' ∨ c = '+' ∨ c = ' ' then st
    else if c = '0' then { st with mode := Mode.flags minus (!minus) }
    else if c = '-' then { st with mode := Mode.flags true false }
    else if isDigit c then { st with mode := Mode.width minus zero (digitVal c) }
    else if c = '.' then { st with mode := Mode.precision minus zero none 0 }
    else verb st c minus zero none none
  | Mode.width minus zero wid =>
    if isDigit c then { st with mode := Mode.width minus zero (wid * 10 + digitVal c) }
    else if c = '.' then { st with mode := Mode.precision minus zero (some wid) 0 }
    else verb st c minus zero (some wid) none
  | Mode.precision minus zero wid prec =>
    if isDigit c then
      { st with mode := Mode.precision minus zero wid (prec * 10 + digitVal c) }
    else verb st c minus zero wid (some prec)

/-- The operands left over, as `%!(EXTRA string=a, string=b)`. -/
def extra : List String → List Char
  | [] => []
  | a :: rest =>
    "%!(EXTRA ".toList ++ "string=".toList ++ a.toList
      ++ (rest.map (fun b => ", string=".toList ++ b.toList)).flatten ++ [')']

/-- End of the format string: a directive that was cut short prints `%!(NOVERB)`, and
operands that were not consumed are reported. -/
def finish (st : State) : List Char :=
  (match st.mode with
    | Mode.text => st.buf
    | _ => st.buf ++ "%!(NOVERB)".toList) ++ extra st.args

end Fmt

/-- Go's `fmt.Sprintf` for string operands, on the directives made of flags, a decimal
width, a decimal precision and a verb (`doPrintf` in `fmt/print.go`). Argument indexes
`[n]`, `*` widths and the verbs `%x`, `%X`, `%q` are outside the modelled fragment; the
program uses none of them. -/
def Sprintf (format : String) (a : List String) : String :=
  String.mk (Fmt.finish (format.toList.foldl Fmt.step ⟨[], a, Fmt.Mode.text⟩))

/-! ## Configuration and zones -/

/-- The fields of `EfficientIPConfig` that the provider reads. -/
structure EfficientIPConfig where
  Host : String
  Port : Int
  Username : String
  Password : String
  DnsSmart : String
  DnsView : String
  SSLVerify : Bool
  DryRun : Bool
  MaxResults : Int
  CreatePTR : Bool
  DefaultTTL : Int
  FQDNRegEx : String
  NameRegEx : String
  deriving DecidableEq, Repr

/-- The source's `ZoneAuth`. -/
structure ZoneAuth where
  Name : String
  Type_ : String
  ID : String
  deriving DecidableEq, Repr

/-- The `where` expression that `EfficientIPAPI.ZonesList` hands to the backend. -/
def ZonesList.whereExpr (config : EfficientIPConfig) : String :=
  let where_ := Sprintf "server_name%%3D%%27%s%%27" [config.DnsSmart]
  if config.DnsView ≠ "" then
    where_ ++ Sprintf "+AND+view_name%%3D%%27%s5%27" [config.DnsView]
  else
    where_

/-! ## Endpoints -/

/-- The library's `endpoint.ProviderSpecificProperty`: one key/value pair. -/
structure ProviderSpecificProperty where
  Name : String
  Value : String
  deriving DecidableEq, Repr

/-- The fields of `endpoint.Endpoint` named by the data model. `RecordTTL` is
`endpoint.TTL`, an `int64`. -/
structure Endpoint where
  DNSName : String
  Targets : List String
  RecordType : String
  RecordTTL : Int
  ProviderSpecific : List ProviderSpecificProperty
  deriving DecidableEq, Repr

/-- The library's `endpoint.RecordTypeA`. -/
def RecordTypeA : String := "A"

/-- The library's `endpoint.RecordTypeTXT`. -/
def RecordTypeTXT : String := "TXT"

/-- Modelled from the spec: `endpoint.NewEndpointWithTTL` belongs to the external-dns
library, which is not part of the source tree. Following the data model, the endpoint
carries the given name, type and TTL, the given value as its single target, and no
provider-specific property. What the library itself does to its arguments (such as
trimming a trailing dot from a name or a target) is outside the model. -/
def NewEndpointWithTTL (dnsName recordType : String) (ttl : Int) (target : String) :
    Endpoint :=
  { DNSName := dnsName, Targets := [target], RecordType := recordType, RecordTTL := ttl,
    ProviderSpecific := [] }

/-- The library's `plan.Changes`. -/
structure Changes where
  Create : List Endpoint
  UpdateOld : List Endpoint
  UpdateNew : List Endpoint
  Delete : List Endpoint
  deriving DecidableEq, Repr

/-! ## `strconv.Atoi` -/

/-- The two causes of a `strconv.NumError`. -/
inductive NumError where
  | ErrSyntax
  | ErrRange
  deriving DecidableEq, Repr

/-- The constant `1<<64 - 1`. -/
def maxUint64 : Nat := 18446744073709551615

/-- The digit loop of `strconv.ParseUint(s, 10, 64)`: a character that is no decimal digit
is a syntax error with value `0`; an overflow is a range error with value `maxUint64`,
reported as soon as it is met. -/
def ParseUint.loop : List Char → Nat → Nat × Option NumError
  | [], n => (n, none)
  | c :: cs, n =>
    if Fmt.isDigit c then
      if n ≥ maxUint64 / 10 + 1 then (maxUint64, some NumError.ErrRange)
      else
        let n1 := n * 10 + Fmt.digitVal c
        if n1 > maxUint64 then (maxUint64, some NumError.ErrRange)
        else ParseUint.loop cs n1
    else (0, some NumError.ErrSyntax)

/-- Go's `strconv.ParseUint(s, 10, 64)`. -/
def ParseUint (s : List Char) : Nat × Option NumError :=
  if s = [] then (0, some NumError.ErrSyntax) else ParseUint.loop s 0

/-- Go's `strconv.ParseInt(s, 10, 0)` where `int` has 64 bits: an optional sign, then
`ParseUint`; a value out of range is replaced by the nearest bound. -/
def ParseInt (s : List Char) : Int × Option NumError :=
  if s = [] then (0, some NumError.ErrSyntax)
  else
    let neg := s.head? = some '-'
    let s1 := if s.head? = some '+' ∨ s.head? = some '-' then s.tail else s
    let (un, err) := ParseUint s1
    if err = some NumError.ErrSyntax then (0, err)
    else if !neg && decide (un ≥ 2 ^ 63) then (2 ^ 63 - 1, some NumError.ErrRange)
    else if neg && decide (un > 2 ^ 63) then (-(2 ^ 63), some NumError.ErrRange)
    else (if neg then -(un : Int) else (un : Int), none)

/-- Go's `strconv.Atoi` on a platform whose `int` has 64 bits: the value and the error.
The short-string fast path of the library computes the same pair and is not separated. -/
def Atoi (s : String) : Int × Option NumError := ParseInt s.toList

/-! ## The SDK envelopes -/

/-- The library's `sdsclient.DnsZoneDataData`: the fields read by `NewZoneAuth`, each
optional. -/
structure DnsZoneDataData where
  ZoneName : Option String
  ZoneType : Option String
  ZoneId : Option String
  deriving DecidableEq, Repr

/-- The library's `sdsclient.DnsZoneData`: the envelope of a zone listing. -/
structure DnsZoneData where
  Success : Option Bool
  Data : List DnsZoneDataData
  deriving DecidableEq, Repr

/-- The library's `sdsclient.DnsRrDataData`: the fields of a resource-record row read by
`RecordList`. -/
structure DnsRrDataData where
  RrFullName : Option String
  RrType : Option String
  RrTtl : Option String
  RrAllValue : Option String
  deriving DecidableEq, Repr

/-- The library's `sdsclient.DnsRrData`: the envelope of a record listing. -/
structure DnsRrData where
  Success : Option Bool
  Data : List DnsRrDataData
  deriving DecidableEq, Repr

/-- Getter of an optional SDK field: the zero value when the field is unset. -/
def DnsZoneDataData.GetZoneName (z : DnsZoneDataData) : String := z.ZoneName.getD ""

/-- Getter of an optional SDK field. -/
def DnsZoneDataData.GetZoneType (z : DnsZoneDataData) : String := z.ZoneType.getD ""

/-- Getter of an optional SDK field. -/
def DnsZoneDataData.GetZoneId (z : DnsZoneDataData) : String := z.ZoneId.getD ""

/-- The envelope carries a `success` field. -/
def DnsZoneData.HasSuccess (z : DnsZoneData) : Bool := z.Success.isSome

/-- The `success` field, `false` when unset. -/
def DnsZoneData.GetSuccess (z : DnsZoneData) : Bool := z.Success.getD false

/-- The rows of the envelope. -/
def DnsZoneData.GetData (z : DnsZoneData) : List DnsZoneDataData := z.Data

/-- Getter of an optional SDK field. -/
def DnsRrDataData.GetRrFullName (rr : DnsRrDataData) : String := rr.RrFullName.getD ""

/-- Getter of an optional SDK field. -/
def DnsRrDataData.GetRrType (rr : DnsRrDataData) : String := rr.RrType.getD ""

/-- Getter of an optional SDK field. -/
def DnsRrDataData.GetRrTtl (rr : DnsRrDataData) : String := rr.RrTtl.getD ""

/-- Getter of an optional SDK field. -/
def DnsRrDataData.GetRrAllValue (rr : DnsRrDataData) : String := rr.RrAllValue.getD ""

/-- The envelope carries a `success` field. -/
def DnsRrData.HasSuccess (r : DnsRrData) : Bool := r.Success.isSome

/-- The `success` field, `false` when unset. -/
def DnsRrData.GetSuccess (r : DnsRrData) : Bool := r.Success.getD false

/-- The rows of the envelope. -/
def DnsRrData.GetData (r : DnsRrData) : List DnsRrDataData := r.Data

/-! ## The backend client `EfficientIPAPI` -/

/-- The two listing calls of the SDK client held by `EfficientIPAPI`. `DnsZoneList w`
stands for `DnsApi.DnsZoneList(ctx).Where(w).Execute()` and `DnsRrList w o` for
`DnsApi.DnsRrList(ctx).Where(w).Orderby(o).Execute()`; each gives the envelope and the
text of `err.Error()`. -/
structure EfficientIPAPI where
  DnsZoneList : String → DnsZoneData × String
  DnsRrList : String → String → DnsRrData × String

/-- The source's `NewZoneAuth`. -/
def NewZoneAuth (zone : DnsZoneDataData) : ZoneAuth :=
  { Name := zone.GetZoneName, Type_ := zone.GetZoneType, ID := zone.GetZoneId }

/-- The source's `EfficientIPAPI.ZonesList`. -/
def EfficientIPAPI.ZonesList (e : EfficientIPAPI) (config : EfficientIPConfig) :
    List ZoneAuth × Option String :=
  let where_ := ZonesList.whereExpr config
  let (zones, err) := e.DnsZoneList where_
  if err ≠ "" ∧ (!zones.HasSuccess || !zones.GetSuccess) then
    ([], some err)
  else
    (zones.GetData.foldl (fun result zone => result ++ [NewZoneAuth zone]) [], none)

/-- The `Host` map of `RecordList`, as the list of its entries in insertion order. -/
abbrev HostMap := List (String × Endpoint)

/-- Lookup in the map: `h, found := Host[key]`. -/
def HostMap.find (key : String) : HostMap → Option Endpoint
  | [] => none
  | (k, h) :: rest => if k = key then some h else HostMap.find key rest

/-- The statement `h.Targets = append(h.Targets, value)` on the endpoint stored under
`key`. -/
def HostMap.appendTarget (key value : String) : HostMap → HostMap
  | [] => []
  | (k, h) :: rest =>
    if k = key then (k, { h with Targets := h.Targets ++ [value] }) :: rest
    else (k, h) :: HostMap.appendTarget key value rest

/-- One iteration of the loop over `records.GetData()`: the state is the `Host` map and
the `endpoints` slice. -/
def RecordList.step (st : HostMap × List Endpoint) (rr : DnsRrDataData) :
    HostMap × List Endpoint :=
  let ttl := (Atoi rr.GetRrTtl).1
  if rr.GetRrType = "A" then
    match HostMap.find (rr.GetRrFullName ++ ":" ++ rr.GetRrType) st.1 with
    | some _ =>
      (HostMap.appendTarget (rr.GetRrFullName ++ ":" ++ rr.GetRrType) rr.GetRrAllValue st.1,
        st.2)
    | none =>
      (st.1 ++ [(rr.GetRrFullName ++ ":" ++ rr.GetRrType,
          NewEndpointWithTTL rr.GetRrFullName RecordTypeA ttl rr.GetRrAllValue)], st.2)
  else if rr.GetRrType = "TXT" then
    (st.1, st.2 ++ [NewEndpointWithTTL rr.GetRrFullName RecordTypeTXT ttl rr.GetRrAllValue])
  else if rr.GetRrType = "CNAME" then
    (st.1, st.2 ++ [NewEndpointWithTTL rr.GetRrFullName rr.GetRrType ttl rr.GetRrAllValue])
  else st

/-- The translation of the rows into endpoints, lines 268 to 292 of `RecordList`.
`rangeHost` is the order in which `for _, rr := range Host` visits the entries of the map,
which Go leaves unspecified: the theorems hold for every `rangeHost` that returns a
permutation of the entries. -/
def RecordList.translate (rangeHost : HostMap → HostMap) (rows : List DnsRrDataData) :
    List Endpoint :=
  let st := rows.foldl RecordList.step ([], [])
  st.2 ++ (rangeHost st.1).map Prod.snd

/-- The source's `EfficientIPAPI.RecordList`. -/
def EfficientIPAPI.RecordList (e : EfficientIPAPI) (rangeHost : HostMap → HostMap)
    (zone : ZoneAuth) : List Endpoint × Option String :=
  let (records, err) := e.DnsRrList ("zone_id=" ++ zone.ID) "rr_full_name"
  if err ≠ "" ∧ (!records.HasSuccess || !records.GetSuccess) then
    ([], some err)
  else
    (RecordList.translate rangeHost records.GetData, none)

/-! ## The client interface and the provider -/

/-- The interface `EfficientipClient`. An implementation may keep state of its own and a
backend behind it: every method takes the state before the call and gives the state after
it. A Go `(value, error)` result is a pair, the error `none` when `nil`. -/
structure EfficientipClient (σ : Type) where
  ZonesList : EfficientIPConfig → σ → (List ZoneAuth × Option String) × σ
  RecordAdd : Endpoint → σ → Option String × σ
  RecordDelete : Endpoint → σ → Option String × σ
  RecordList : ZoneAuth → σ → (List Endpoint × Option String) × σ

/-- The source's `Provider`. `domainFilter` stands for `endpoint.DomainFilter.Match`, a
function of the external-dns library. -/
structure Provider (σ : Type) where
  client : EfficientipClient σ
  domainFilter : String → Bool
  config : EfficientIPConfig

variable {σ : Type}

/-- The source's `Provider.Zones`. -/
def Provider.Zones (p : Provider σ) (s : σ) : (List ZoneAuth × Option String) × σ :=
  match p.client.ZonesList p.config s with
  | ((_, some err), s1) => (([], some err), s1)
  | ((zones, none), s1) =>
    ((zones.foldl (fun result zone =>
        if !p.domainFilter zone.Name then result else result ++ [zone]) [], none), s1)

/-- The loop of `Provider.Records` over the zones, `endpoints` being the slice built so
far. -/
def Provider.Records.loop (p : Provider σ) :
    List ZoneAuth → List Endpoint → σ → (List Endpoint × Option String) × σ
  | [], endpoints, s => ((endpoints, none), s)
  | zone :: rest, endpoints, s =>
    match p.client.RecordList zone s with
    | ((_, some err), s1) => (([], some err), s1)
    | ((records, none), s1) => Provider.Records.loop p rest (endpoints ++ records) s1

/-- The source's `Provider.Records`. The error of a failed zone listing is wrapped by
`fmt.Errorf("could not fetch zones: %w", err)`. -/
def Provider.Records (p : Provider σ) (s : σ) : (List Endpoint × Option String) × σ :=
  match p.Zones s with
  | ((_, some err), s1) => (([], some ("could not fetch zones: " ++ err)), s1)
  | ((zones, none), s1) => Provider.Records.loop p zones [] s1

/-- The source's `Provider.DeleteChanges`. With dry-run set only log lines are written. -/
def Provider.DeleteChanges (p : Provider σ) (changes : Endpoint) (s : σ) :
    Option String × σ :=
  if p.config.DryRun then (none, s)
  else (none, (p.client.RecordDelete changes s).2)

/-- The source's `Provider.CreateChanges`. With dry-run set only log lines are written. -/
def Provider.CreateChanges (p : Provider σ) (changes : Endpoint) (s : σ) :
    Option String × σ :=
  if p.config.DryRun then (none, s)
  else (none, (p.client.RecordAdd changes s).2)

/-- One of the four loops of `ApplyChanges`: `f` is applied to every element in order,
and the first error ends the loop and is returned. -/
def Provider.ApplyChanges.loop (f : Endpoint → σ → Option String × σ) :
    List Endpoint → σ → Option String × σ
  | [], s => (none, s)
  | change :: rest, s =>
    match f change s with
    | (some err, s1) => (some err, s1)
    | (none, s1) => Provider.ApplyChanges.loop f rest s1

/-- The source's `Provider.ApplyChanges`. -/
def Provider.ApplyChanges (p : Provider σ) (changes : Changes) (s : σ) :
    Option String × σ :=
  match Provider.ApplyChanges.loop p.DeleteChanges changes.Delete s with
  | (some err, s1) => (some err, s1)
  | (none, s1) =>
    match Provider.ApplyChanges.loop p.DeleteChanges changes.UpdateOld s1 with
    | (some err, s2) => (some err, s2)
    | (none, s2) =>
      match Provider.ApplyChanges.loop p.CreateChanges changes.UpdateNew s2 with
      | (some err, s3) => (some err, s3)
      | (none, s3) =>
        match Provider.ApplyChanges.loop p.CreateChanges changes.Create s3 with
        | (some err, s4) => (some err, s4)
        | (none, s4) => (none, s4)

/-- The key `providerSpecificEfficientipPtrRecord`. -/
def providerSpecificEfficientipPtrRecord : String := "efficientip-ptr-record-exists"

/-- The inner loop of `AdjustEndpoints` over the provider-specific properties: every
property under the marker key gets the value `"true"`; the flag tells whether one was
found. -/
def AdjustEndpoints.mark :
    List ProviderSpecificProperty → Bool → List ProviderSpecificProperty × Bool
  | [], found => ([], found)
  | ps :: rest, found =>
    if ps.Name = providerSpecificEfficientipPtrRecord then
      let r := AdjustEndpoints.mark rest true
      ({ ps with Value := "true" } :: r.1, r.2)
    else
      let r := AdjustEndpoints.mark rest found
      (ps :: r.1, r.2)

/-- The body of the second loop of `AdjustEndpoints` for one endpoint. When the key is
not found, `WithProviderSpecific` appends the pair. -/
def AdjustEndpoints.ptr (ep : Endpoint) : Endpoint :=
  if ep.RecordType = RecordTypeA then
    let r := AdjustEndpoints.mark ep.ProviderSpecific false
    if !r.2 then
      { ep with ProviderSpecific :=
          r.1 ++ [{ Name := providerSpecificEfficientipPtrRecord, Value := "true" }] }
    else
      { ep with ProviderSpecific := r.1 }
  else ep

/-- The body of the first loop of `AdjustEndpoints` for one endpoint. -/
def AdjustEndpoints.ttl (isConfigured : Int → Bool) (config : EfficientIPConfig)
    (ep : Endpoint) : Endpoint :=
  if !isConfigured ep.RecordTTL then { ep with RecordTTL := config.DefaultTTL } else ep

/-- The source's `Provider.AdjustEndpoints`. `isConfigured` stands for
`endpoint.TTL.IsConfigured` of the external-dns library. The Go function updates the endpoints behind the pointers of the
slice; each loop body applied twice to an endpoint has the effect of applying it once, so
a pointer that occurs twice in the slice ends with the value computed here. -/
def Provider.AdjustEndpoints (isConfigured : Int → Bool) (p : Provider σ)
    (endpoints : List Endpoint) : List Endpoint × Option String :=
  let endpoints1 := endpoints.map (AdjustEndpoints.ttl isConfigured p.config)
  if !p.config.CreatePTR then (endpoints1, none)
  else (endpoints1.map AdjustEndpoints.ptr, none)

/-! ## Reference notions used to state the properties -/

/-- A call on the client that changes the backend. -/
inductive Call where
  | RecordAdd (rr : Endpoint)
  | RecordDelete (rr : Endpoint)
  deriving DecidableEq, Repr

/-- The call is a `RecordDelete`. -/
def Call.isDelete : Call → Bool
  | Call.RecordDelete _ => true
  | Call.RecordAdd _ => false

/-- The state of the client after `calls` have been issued in order from state `s`,
whatever they return. -/
def issue (c : EfficientipClient σ) : List Call → σ → σ
  | [], s => s
  | Call.RecordAdd rr :: rest, s => issue c rest (c.RecordAdd rr s).2
  | Call.RecordDelete rr :: rest, s => issue c rest (c.RecordDelete rr s).2

/-- A client that records the mutation calls it receives, in order; what each call
returns is chosen by `ret` from the calls received before and the call itself. -/
def recorder (ret : List Call → Call → Option String) : EfficientipClient (List Call) where
  ZonesList := fun _ log => (([], none), log)
  RecordAdd := fun rr log => (ret log (Call.RecordAdd rr), log ++ [Call.RecordAdd rr])
  RecordDelete := fun rr log =>
    (ret log (Call.RecordDelete rr), log ++ [Call.RecordDelete rr])
  RecordList := fun _ log => (([], none), log)

/-- The calls a changeset stands for: deletions for `Delete` and `UpdateOld`, then
additions for `UpdateNew` and `Create`. -/
def callSequence (changes : Changes) : List Call :=
  (changes.Delete.map Call.RecordDelete ++ changes.UpdateOld.map Call.RecordDelete)
    ++ (changes.UpdateNew.map Call.RecordAdd ++ changes.Create.map Call.RecordAdd)

/-! ## Sample inputs and the specification's wording -/

/-- A configuration with smart `smart` and view `v`. -/
def viewConfig : EfficientIPConfig :=
  { Host := "localhost", Port := 443, Username := "u", Password := "p", DnsSmart := "smart",
    DnsView := "v", SSLVerify := true, DryRun := false, MaxResults := 1500,
    CreatePTR := false, DefaultTTL := 300, FQDNRegEx := "", NameRegEx := "" }

/-- A backend whose calls report the transport error `connection reset` together with an
envelope that says success. -/
def transportErrorOnly : EfficientIPAPI where
  DnsZoneList := fun _ => (⟨some true, []⟩, "connection reset")
  DnsRrList := fun _ _ => (⟨some true, []⟩, "connection reset")

/-- A backend whose calls report no transport error and an envelope that says failure. -/
def envelopeFailureOnly : EfficientIPAPI where
  DnsZoneList := fun _ => (⟨some false, []⟩, "")
  DnsRrList := fun _ _ => (⟨some false, []⟩, "")

/-- The zone `example.com` with identifier `7`. -/
def exampleZone : ZoneAuth := { Name := "example.com", Type_ := "master", ID := "7" }

/-- The failure rule as the specification words it: an error is returned if and only if
the call reported a transport error or the envelope is not an explicit success. -/
def failsOnEither (e : EfficientIPAPI) (rangeHost : HostMap → HostMap)
    (config : EfficientIPConfig) (zone : ZoneAuth) : Prop :=
  ((e.ZonesList config).2 ≠ none
      ↔ (e.DnsZoneList (ZonesList.whereExpr config)).2 ≠ ""
        ∨ (e.DnsZoneList (ZonesList.whereExpr config)).1.Success ≠ some true)
    ∧ ((e.RecordList rangeHost zone).2 ≠ none
      ↔ (e.DnsRrList ("zone_id=" ++ zone.ID) "rr_full_name").2 ≠ ""
        ∨ (e.DnsRrList ("zone_id=" ++ zone.ID) "rr_full_name").1.Success ≠ some true)

/-- A configuration with dry-run off (`false`) or on (`true`). -/
def dryRunConfig (dryRun : Bool) : EfficientIPConfig :=
  { viewConfig with DryRun := dryRun }

/-- The A endpoint `name -> target` with TTL 300. -/
def aRecord (name target : String) : Endpoint :=
  { DNSName := name, Targets := [target], RecordType := "A", RecordTTL := 300,
    ProviderSpecific := [] }

/-- A changeset with one endpoint in each sequence, given in the order of the fields
`Create`, `UpdateOld`, `UpdateNew`, `Delete`. -/
def sampleChanges : Changes :=
  { Create := [aRecord "c.example.com" "1.1.1.1"],
    UpdateOld := [aRecord "u.example.com" "2.2.2.2"],
    UpdateNew := [aRecord "u.example.com" "3.3.3.3"],
    Delete := [aRecord "d.example.com" "4.4.4.4"] }

/-- What `RecordList` returns for each zone of the list when the zones are listed one
after the other from state `s`. -/
def listEach (c : EfficientipClient σ) : List ZoneAuth → σ → List (List Endpoint × Option String)
  | [], _ => []
  | zone :: rest, s => (c.RecordList zone s).1 :: listEach c rest (c.RecordList zone s).2

/-- The zones a provider has in scope: those returned by the zone listing from state `s`
whose name passes the domain filter, in the order of the listing. -/
def zonesInScope (p : Provider σ) (s : σ) : List ZoneAuth :=
  (p.client.ZonesList p.config s).1.1.filter (fun zone => p.domainFilter zone.Name)

/-- A client over a backend with three zones; the listing of the records of a zone fails
for the zones named in `broken`, and the zone listing fails when `zonesFail` is set. -/
def cannedClient (zonesFail : Bool) (broken : List String) : EfficientipClient Unit where
  ZonesList := fun _ s =>
    if zonesFail then (([], some "timeout"), s)
    else (([⟨"example.com", "master", "1"⟩, ⟨"internal.test", "master", "2"⟩,
            ⟨"example.org", "master", "3"⟩], none), s)
  RecordAdd := fun _ s => (none, s)
  RecordDelete := fun _ s => (none, s)
  RecordList := fun zone s =>
    if zone.Name ∈ broken then (([aRecord ("stale." ++ zone.Name) "9.9.9.9"], some "rr failed"), s)
    else (([aRecord ("www." ++ zone.Name) "1.1.1.1"], none), s)

/-- A provider over `cannedClient` whose domain filter drops the zone `internal.test`. -/
def cannedProvider (zonesFail : Bool) (broken : List String) : Provider Unit :=
  { client := cannedClient zonesFail broken,
    domainFilter := fun name => name ≠ "internal.test",
    config := viewConfig }

/-- The notion of a configured TTL in the external-dns library (`TTL.IsConfigured`): a
positive TTL. -/
def positiveTTL (ttl : Int) : Bool := decide (0 < ttl)

/-- A provider over the recording client with the given default TTL and PTR toggle. -/
def adjustProvider (createPTR : Bool) (defaultTTL : Int) : Provider (List Call) :=
  { client := recorder (fun _ _ => none),
    domainFilter := fun _ => true,
    config := { viewConfig with CreatePTR := createPTR, DefaultTTL := defaultTTL } }

/-- The A endpoint `x -> 1.2.3.4` with the TTL unset. -/
def unsetTTLRecord : Endpoint :=
  { DNSName := "x", Targets := ["1.2.3.4"], RecordType := "A", RecordTTL := 0,
    ProviderSpecific := [] }

/-- An A endpoint that carries the marker with the value `false`, and a TTL of 120. -/
def markedRecord : Endpoint :=
  { DNSName := "y", Targets := ["5.6.7.8"], RecordType := "A", RecordTTL := 120,
    ProviderSpecific := [⟨"other", "1"⟩, ⟨"efficientip-ptr-record-exists", "false"⟩] }

/-- A CNAME endpoint with the TTL unset. -/
def cnameRecord : Endpoint :=
  { DNSName := "z", Targets := ["x"], RecordType := "CNAME", RecordTTL := 0,
    ProviderSpecific := [] }

/-- The endpoint that stands for one row on its own: the row's name, its value as the
single target, its type, and the TTL that `ttlOf` reads from the row's TTL string. -/
def rowEndpoint (ttlOf : String → Int) (rr : DnsRrDataData) : Endpoint :=
  { DNSName := rr.GetRrFullName, Targets := [rr.GetRrAllValue], RecordType := rr.GetRrType,
    RecordTTL := ttlOf rr.GetRrTtl, ProviderSpecific := [] }

/-- The record type is `CNAME` or `TXT`. -/
def isCnameOrTxt (recordType : String) : Bool :=
  decide (recordType = "CNAME") || decide (recordType = "TXT")

/-- The record type is one that `RecordList` translates: `A`, `CNAME` or `TXT`. -/
def isRecognized (recordType : String) : Bool :=
  decide (recordType = "A") || isCnameOrTxt recordType

/-- The number written by a non-empty string of decimal digits. -/
def natValue (ds : List Char) : Option Nat :=
  if ds ≠ [] ∧ ds.all Fmt.isDigit = true then
    some (ds.foldl (fun n c => n * 10 + Fmt.digitVal c) 0)
  else none

/-- The integer written by a string: decimal digits after an optional sign; `none` when
the string is not numeric. -/
def decimalValue (s : List Char) : Option Int :=
  if s.head? = some '-' then (natValue s.tail).map (fun n => -(n : Int))
  else if s.head? = some '+' then (natValue s.tail).map (fun n => (n : Int))
  else (natValue s).map (fun n => (n : Int))

/-- The TTL of a row as the specification words it: the TTL string parsed as an integer,
zero when the string is not numeric. -/
def specTTL (s : String) : Int := (decimalValue s.toList).getD 0

/-- The translation of CNAME and TXT rows as the specification words it: the CNAME and
TXT endpoints of the result are one endpoint per CNAME or TXT row, in encounter order,
with the TTL of the specification. -/
def translatesEachRow (rangeHost : HostMap → HostMap) (rows : List DnsRrDataData) : Prop :=
  (RecordList.translate rangeHost rows).filter (fun ep => isCnameOrTxt ep.RecordType)
    = (rows.filter (fun rr => isCnameOrTxt rr.GetRrType)).map (rowEndpoint specTTL)

/-- The two A rows of the scenario: `a.example.com` with values `1.1.1.1` and `2.2.2.2`,
TTL `300`. -/
def scenarioRows : List DnsRrDataData :=
  [⟨some "a.example.com", some "A", some "300", some "1.1.1.1"⟩,
   ⟨some "a.example.com", some "A", some "300", some "2.2.2.2"⟩]

/-- Rows of mixed types: a CNAME row whose TTL is not numeric, an A row, an MX row, a TXT
row with no TTL, a second A row of the same name. -/
def mixedRows : List DnsRrDataData :=
  [⟨some "c.example.com", some "CNAME", some "abc", some "a.example.com"⟩,
   ⟨some "a.example.com", some "A", some "300", some "1.1.1.1"⟩,
   ⟨some "example.com", some "MX", some "300", some "10 mail.example.com"⟩,
   ⟨some "t.example.com", some "TXT", none, some "v=spf1 -all"⟩,
   ⟨some "a.example.com", some "A", some "60", some "2.2.2.2"⟩]

/-- A TXT row whose TTL string is a numeral of twenty digits. -/
def longTTLRows : List DnsRrDataData :=
  [⟨some "t.example.com", some "TXT", some "99999999999999999999", some "v=spf1 -all"⟩]

/-! ## The filter expression of `ZonesList` -/

/-- The first `Sprintf` of `ZonesList`: the smart clause. -/
theorem Sprintf_smart (s : String) :
    Sprintf "server_name%%3D%%27%s%%27" [s] = "server_name%3D%27" ++ s ++ "%27" := by
  apply String.ext
  simp [Sprintf, Fmt.finish, Fmt.step, Fmt.verb, Fmt.printArg, Fmt.pad, Fmt.extra,
    Fmt.isDigit]

/-- The second `Sprintf` of `ZonesList`: after the view value the format goes on with the
literal `5` and the directive `%27`, a width with no verb. -/
theorem Sprintf_view (v : String) :
    Sprintf "+AND+view_name%%3D%%27%s5%27" [v]
      = "+AND+view_name%3D%27" ++ v ++ "5%!(NOVERB)" := by
  apply String.ext
  simp [Sprintf, Fmt.finish, Fmt.step, Fmt.verb, Fmt.printArg, Fmt.pad, Fmt.extra,
    Fmt.isDigit]

/-- What `ZonesList` sends as `where`, for every smart and view. -/
theorem whereExpr_eq (config : EfficientIPConfig) :
    ZonesList.whereExpr config
      = if config.DnsView = "" then "server_name%3D%27" ++ config.DnsSmart ++ "%27"
        else "server_name%3D%27" ++ config.DnsSmart ++ "%27"
          ++ ("+AND+view_name%3D%27" ++ config.DnsView ++ "5%!(NOVERB)") := by
  unfold ZonesList.whereExpr
  simp only [Sprintf_smart, Sprintf_view]
  by_cases h : config.DnsView = "" <;> simp [h]

/-- C10, at smart `smart` and view `v`: the `where` expression of `ZonesList` is
`server_name%3D%27smart%27+AND+view_name%3D%27v5%!(NOVERB)`, and so differs from the
expression `server_name%3D%27smart%27+AND+view_name%3D%27v%27` in which the view value is
closed by the URL-encoded quote with nothing else appended. -/
theorem whereExpr_view_slip :
    ZonesList.whereExpr viewConfig
        = "server_name%3D%27smart%27+AND+view_name%3D%27v5%!(NOVERB)"
      ∧ ZonesList.whereExpr viewConfig
        ≠ "server_name%3D%27" ++ viewConfig.DnsSmart ++ "%27"
            ++ ("+AND+view_name%3D%27" ++ viewConfig.DnsView ++ "%27") := by
  constructor
  · rw [whereExpr_eq]; decide
  · rw [whereExpr_eq]; decide

/-! ## Failure of the listing operations -/

/-- The function `ZonesList` reports an error exactly when the guard of its `if` holds. -/
theorem ZonesList_error_iff (e : EfficientIPAPI) (config : EfficientIPConfig) :
    (e.ZonesList config).2 ≠ none
      ↔ (e.DnsZoneList (ZonesList.whereExpr config)).2 ≠ ""
        ∧ (e.DnsZoneList (ZonesList.whereExpr config)).1.Success ≠ some true := by
  rcases h : e.DnsZoneList (ZonesList.whereExpr config) with ⟨zones, err⟩
  rcases zones with ⟨success, data⟩
  rcases success with _ | b
  · by_cases he : err = "" <;>
      simp [EfficientIPAPI.ZonesList, h, DnsZoneData.HasSuccess, DnsZoneData.GetSuccess, he]
  · cases b <;> by_cases he : err = "" <;>
      simp [EfficientIPAPI.ZonesList, h, DnsZoneData.HasSuccess, DnsZoneData.GetSuccess, he]

/-- The function `RecordList` reports an error exactly when the guard of its `if` holds. -/
theorem RecordList_error_iff (e : EfficientIPAPI) (rangeHost : HostMap → HostMap)
    (zone : ZoneAuth) :
    (e.RecordList rangeHost zone).2 ≠ none
      ↔ (e.DnsRrList ("zone_id=" ++ zone.ID) "rr_full_name").2 ≠ ""
        ∧ (e.DnsRrList ("zone_id=" ++ zone.ID) "rr_full_name").1.Success ≠ some true := by
  rcases h : e.DnsRrList ("zone_id=" ++ zone.ID) "rr_full_name" with ⟨records, err⟩
  rcases records with ⟨success, data⟩
  rcases success with _ | b
  · by_cases he : err = "" <;>
      simp [EfficientIPAPI.RecordList, h, DnsRrData.HasSuccess, DnsRrData.GetSuccess, he]
  · cases b <;> by_cases he : err = "" <;>
      simp [EfficientIPAPI.RecordList, h, DnsRrData.HasSuccess, DnsRrData.GetSuccess, he]

/-- When the guard does not hold, `RecordList` returns the translated rows. -/
theorem RecordList_eq_translate (e : EfficientIPAPI) (rangeHost : HostMap → HostMap)
    (zone : ZoneAuth)
    (h : (e.DnsRrList ("zone_id=" ++ zone.ID) "rr_full_name").2 = ""
      ∨ (e.DnsRrList ("zone_id=" ++ zone.ID) "rr_full_name").1.Success = some true) :
    e.RecordList rangeHost zone
      = (RecordList.translate rangeHost
          (e.DnsRrList ("zone_id=" ++ zone.ID) "rr_full_name").1.Data, none) := by
  rcases h1 : e.DnsRrList ("zone_id=" ++ zone.ID) "rr_full_name" with ⟨records, err⟩
  rw [h1] at h
  rcases records with ⟨success, data⟩
  rcases h with h | h
  · simp at h
    simp [EfficientIPAPI.RecordList, h1, h, DnsRrData.GetData]
  · simp at h
    simp [EfficientIPAPI.RecordList, h1, h, DnsRrData.HasSuccess, DnsRrData.GetSuccess,
      DnsRrData.GetData]

/-- C5 as stated fails: a transport error alone (envelope successful) is no failure of
either listing operation, and neither is an unsuccessful envelope alone. -/
theorem failsOnEither_counterexample :
    ¬ failsOnEither transportErrorOnly id viewConfig exampleZone
      ∧ ¬ failsOnEither envelopeFailureOnly id viewConfig exampleZone
      ∧ (transportErrorOnly.ZonesList viewConfig).2 = none
      ∧ (transportErrorOnly.RecordList id exampleZone).2 = none
      ∧ (envelopeFailureOnly.ZonesList viewConfig).2 = none
      ∧ (envelopeFailureOnly.RecordList id exampleZone).2 = none := by
  have h1 : (transportErrorOnly.ZonesList viewConfig).2 = none := by
    simp [EfficientIPAPI.ZonesList, transportErrorOnly, DnsZoneData.HasSuccess,
      DnsZoneData.GetSuccess]
  have h2 : (transportErrorOnly.RecordList id exampleZone).2 = none := by
    simp [EfficientIPAPI.RecordList, transportErrorOnly, DnsRrData.HasSuccess,
      DnsRrData.GetSuccess]
  have h3 : (envelopeFailureOnly.ZonesList viewConfig).2 = none := by
    simp [EfficientIPAPI.ZonesList, envelopeFailureOnly]
  have h4 : (envelopeFailureOnly.RecordList id exampleZone).2 = none := by
    simp [EfficientIPAPI.RecordList, envelopeFailureOnly]
  refine ⟨?_, ?_, h1, h2, h3, h4⟩
  · intro h
    have := h.1.2 (Or.inl (by simp [transportErrorOnly]))
    exact this h1
  · intro h
    have := h.1.2 (Or.inr (by simp [envelopeFailureOnly]))
    exact this h3

/-- C5, amended: `ZonesList` and `RecordList` return an error if and only if the backend
call reported a non-empty error message and, with it, the envelope is not an explicit
success. -/
theorem listing_fails_iff (e : EfficientIPAPI) (rangeHost : HostMap → HostMap)
    (config : EfficientIPConfig) (zone : ZoneAuth) :
    ((e.ZonesList config).2 ≠ none
      ↔ (e.DnsZoneList (ZonesList.whereExpr config)).2 ≠ ""
        ∧ (e.DnsZoneList (ZonesList.whereExpr config)).1.Success ≠ some true)
    ∧ ((e.RecordList rangeHost zone).2 ≠ none
      ↔ (e.DnsRrList ("zone_id=" ++ zone.ID) "rr_full_name").2 ≠ ""
        ∧ (e.DnsRrList ("zone_id=" ++ zone.ID) "rr_full_name").1.Success ≠ some true) :=
  ⟨ZonesList_error_iff e config, RecordList_error_iff e rangeHost zone⟩

/-! ## `ApplyChanges` -/

/-- A loop of deletions with dry-run off issues one `RecordDelete` per element, in order,
and ends without error. -/
theorem loop_DeleteChanges (p : Provider σ) (h : p.config.DryRun = false)
    (l : List Endpoint) (s : σ) :
    Provider.ApplyChanges.loop p.DeleteChanges l s
      = (none, issue p.client (l.map Call.RecordDelete) s) := by
  induction l generalizing s with
  | nil => rfl
  | cons a l ih =>
    simp [Provider.ApplyChanges.loop, Provider.DeleteChanges, h, issue, ih]

/-- A loop of creations with dry-run off issues one `RecordAdd` per element, in order, and
ends without error. -/
theorem loop_CreateChanges (p : Provider σ) (h : p.config.DryRun = false)
    (l : List Endpoint) (s : σ) :
    Provider.ApplyChanges.loop p.CreateChanges l s
      = (none, issue p.client (l.map Call.RecordAdd) s) := by
  induction l generalizing s with
  | nil => rfl
  | cons a l ih =>
    simp [Provider.ApplyChanges.loop, Provider.CreateChanges, h, issue, ih]

/-- Issuing two lists of calls one after the other. -/
theorem issue_append (c : EfficientipClient σ) (l1 l2 : List Call) (s : σ) :
    issue c (l1 ++ l2) s = issue c l2 (issue c l1 s) := by
  induction l1 generalizing s with
  | nil => rfl
  | cons a l ih => cases a <;> simp [issue, ih]

/-- The recording client appends the calls to its log. -/
theorem issue_recorder (ret : List Call → Call → Option String) (l log : List Call) :
    issue (recorder ret) l log = log ++ l := by
  induction l generalizing log with
  | nil => simp [issue]
  | cons a l ih =>
    cases a with
    | RecordAdd rr =>
      show issue (recorder ret) l (log ++ [Call.RecordAdd rr]) = _
      rw [ih]; simp
    | RecordDelete rr =>
      show issue (recorder ret) l (log ++ [Call.RecordDelete rr]) = _
      rw [ih]; simp

/-- With dry-run off, `ApplyChanges` on any client ends without error in the state
reached by issuing the calls of the changeset in order. -/
theorem ApplyChanges_eq_issue (p : Provider σ) (h : p.config.DryRun = false)
    (changes : Changes) (s : σ) :
    p.ApplyChanges changes s = (none, issue p.client (callSequence changes) s) := by
  simp [Provider.ApplyChanges, loop_DeleteChanges p h, loop_CreateChanges p h,
    callSequence, issue_append]

/-- With dry-run on, a loop of deletions leaves the state as it is. -/
theorem loop_DeleteChanges_dry (p : Provider σ) (h : p.config.DryRun = true)
    (l : List Endpoint) (s : σ) :
    Provider.ApplyChanges.loop p.DeleteChanges l s = (none, s) := by
  induction l generalizing s with
  | nil => rfl
  | cons a l ih => simp [Provider.ApplyChanges.loop, Provider.DeleteChanges, h, ih]

/-- With dry-run on, a loop of creations leaves the state as it is. -/
theorem loop_CreateChanges_dry (p : Provider σ) (h : p.config.DryRun = true)
    (l : List Endpoint) (s : σ) :
    Provider.ApplyChanges.loop p.CreateChanges l s = (none, s) := by
  induction l generalizing s with
  | nil => rfl
  | cons a l ih => simp [Provider.ApplyChanges.loop, Provider.CreateChanges, h, ih]

/-- A loop over `DeleteChanges` never ends with an error. -/
theorem loop_DeleteChanges_fst (p : Provider σ) (l : List Endpoint) (s : σ) :
    (Provider.ApplyChanges.loop p.DeleteChanges l s).1 = none := by
  induction l generalizing s with
  | nil => rfl
  | cons a l ih =>
    by_cases h : p.config.DryRun = true <;>
      simp [Provider.ApplyChanges.loop, Provider.DeleteChanges, h, ih]

/-- A loop over `CreateChanges` never ends with an error. -/
theorem loop_CreateChanges_fst (p : Provider σ) (l : List Endpoint) (s : σ) :
    (Provider.ApplyChanges.loop p.CreateChanges l s).1 = none := by
  induction l generalizing s with
  | nil => rfl
  | cons a l ih =>
    by_cases h : p.config.DryRun = true <;>
      simp [Provider.ApplyChanges.loop, Provider.CreateChanges, h, ih]

/-- In a list made of deletions followed by additions, a deletion stands before every
addition. -/
theorem delete_before_add (l1 l2 : List Call) (h1 : ∀ c ∈ l1, c.isDelete = true)
    (h2 : ∀ c ∈ l2, c.isDelete = false) (i j : Nat) (hi : i < (l1 ++ l2).length)
    (hj : j < (l1 ++ l2).length) (hd : ((l1 ++ l2).get ⟨i, hi⟩).isDelete = true)
    (ha : ((l1 ++ l2).get ⟨j, hj⟩).isDelete = false) : i < j := by
  simp only [List.get_eq_getElem] at hd ha
  have hi1 : i < l1.length := by
    by_contra hcon
    have hle : l1.length ≤ i := Nat.le_of_not_lt hcon
    rw [List.getElem_append_right hle] at hd
    have := h2 _ (List.getElem_mem (l := l2) (n := i - l1.length) (by simp at hi; omega))
    rw [this] at hd
    exact Bool.noConfusion hd
  have hj1 : l1.length ≤ j := by
    by_contra hcon
    have hlt : j < l1.length := Nat.lt_of_not_le hcon
    rw [List.getElem_append_left hlt] at ha
    have := h1 _ (List.getElem_mem (l := l1) (n := j) hlt)
    rw [this] at ha
    exact Bool.noConfusion ha
  omega

/-- C3: with dry-run disabled, for every changeset and whatever every call returns
(`ret` chooses it from the calls made so far), the calls received by the client are, after
those already in its log, exactly `RecordDelete` for each endpoint of `Delete` in order,
then `RecordDelete` for each of `UpdateOld`, then `RecordAdd` for each of `UpdateNew`, then
`RecordAdd` for each of `Create`; in that sequence every `RecordDelete` stands before every
`RecordAdd`. -/
theorem ApplyChanges_call_sequence (ret : List Call → Call → Option String)
    (domainFilter : String → Bool) (config : EfficientIPConfig)
    (h : config.DryRun = false) (changes : Changes) (log : List Call) :
    (Provider.ApplyChanges ⟨recorder ret, domainFilter, config⟩ changes log).2
        = log ++ (changes.Delete.map Call.RecordDelete
            ++ changes.UpdateOld.map Call.RecordDelete
            ++ changes.UpdateNew.map Call.RecordAdd ++ changes.Create.map Call.RecordAdd)
      ∧ ∀ (i j : Nat) (hi : i < (callSequence changes).length)
          (hj : j < (callSequence changes).length),
          ((callSequence changes).get ⟨i, hi⟩).isDelete = true →
          ((callSequence changes).get ⟨j, hj⟩).isDelete = false → i < j := by
  constructor
  · rw [ApplyChanges_eq_issue _ h, issue_recorder]
    simp [callSequence]
  · intro i j hi hj h1 h2
    exact delete_before_add
      (changes.Delete.map Call.RecordDelete ++ changes.UpdateOld.map Call.RecordDelete)
      (changes.UpdateNew.map Call.RecordAdd ++ changes.Create.map Call.RecordAdd)
      (by
        intro c hc
        simp only [List.mem_append, List.mem_map] at hc
        rcases hc with ⟨a, _, rfl⟩ | ⟨a, _, rfl⟩ <;> rfl)
      (by
        intro c hc
        simp only [List.mem_append, List.mem_map] at hc
        rcases hc with ⟨a, _, rfl⟩ | ⟨a, _, rfl⟩ <;> rfl)
      i j hi hj h1 h2

/-- C3 at an input: dry-run off, every call refused by the backend, one endpoint in each
sequence of the changeset; the client receives the two deletions, then the two
additions. -/
theorem ApplyChanges_call_sequence_witness :
    (dryRunConfig false).DryRun = false
      ∧ (Provider.ApplyChanges
          ⟨recorder (fun _ _ => some "refused"), fun _ => true, dryRunConfig false⟩
          sampleChanges []).2
        = [Call.RecordDelete (aRecord "d.example.com" "4.4.4.4"),
            Call.RecordDelete (aRecord "u.example.com" "2.2.2.2"),
            Call.RecordAdd (aRecord "u.example.com" "3.3.3.3"),
            Call.RecordAdd (aRecord "c.example.com" "1.1.1.1")] :=
  ⟨rfl, (ApplyChanges_call_sequence (fun _ _ => some "refused") (fun _ => true)
    (dryRunConfig false) rfl sampleChanges []).1⟩

/-- C4: with dry-run set, for every changeset and every client, `ApplyChanges` returns no
error and leaves the state of the client and of its backend as it was: no `RecordAdd` and
no `RecordDelete` is called. -/
theorem ApplyChanges_dry_run (p : Provider σ) (h : p.config.DryRun = true)
    (changes : Changes) (s : σ) :
    p.ApplyChanges changes s = (none, s) := by
  simp [Provider.ApplyChanges, loop_DeleteChanges_dry p h, loop_CreateChanges_dry p h]

/-- C4 at an input: dry-run on, a client that records its calls and refuses each one; the
log of calls stays empty. -/
theorem ApplyChanges_dry_run_witness :
    (dryRunConfig true).DryRun = true
      ∧ Provider.ApplyChanges
          ⟨recorder (fun _ _ => some "refused"), fun _ => true, dryRunConfig true⟩
          sampleChanges [] = (none, []) :=
  ⟨rfl, ApplyChanges_dry_run
    ⟨recorder (fun _ _ => some "refused"), fun _ => true, dryRunConfig true⟩ rfl
    sampleChanges []⟩

/-- C7: for every client, whatever its `RecordAdd` and `RecordDelete` return, for every
changeset and with dry-run on or off, `ApplyChanges` returns no error. -/
theorem ApplyChanges_no_error (p : Provider σ) (changes : Changes) (s : σ) :
    (p.ApplyChanges changes s).1 = none := by
  have h1 := loop_DeleteChanges_fst p changes.Delete s
  rcases e1 : Provider.ApplyChanges.loop p.DeleteChanges changes.Delete s with ⟨r1, s1⟩
  rw [e1] at h1
  simp only at h1
  subst h1
  have h2 := loop_DeleteChanges_fst p changes.UpdateOld s1
  rcases e2 : Provider.ApplyChanges.loop p.DeleteChanges changes.UpdateOld s1 with ⟨r2, s2⟩
  rw [e2] at h2
  simp only at h2
  subst h2
  have h3 := loop_CreateChanges_fst p changes.UpdateNew s2
  rcases e3 : Provider.ApplyChanges.loop p.CreateChanges changes.UpdateNew s2 with ⟨r3, s3⟩
  rw [e3] at h3
  simp only at h3
  subst h3
  have h4 := loop_CreateChanges_fst p changes.Create s3
  rcases e4 : Provider.ApplyChanges.loop p.CreateChanges changes.Create s3 with ⟨r4, s4⟩
  rw [e4] at h4
  simp only at h4
  subst h4
  simp [Provider.ApplyChanges, e1, e2, e3, e4]

/-! ## `Records` -/

/-- The loop of `Zones` keeps the zones whose name passes the domain filter. -/
theorem Zones_foldl_eq_filter (f : String → Bool) (zones acc : List ZoneAuth) :
    zones.foldl (fun result zone => if !f zone.Name then result else result ++ [zone]) acc
      = acc ++ zones.filter (fun zone => f zone.Name) := by
  induction zones generalizing acc with
  | nil => simp
  | cons z zs ih =>
    rw [List.foldl_cons, ih]
    by_cases hz : f z.Name = true <;> simp [hz]

/-- The function `Zones` fails when the zone listing fails. -/
theorem Zones_of_error (p : Provider σ) (s : σ)
    (h : (p.client.ZonesList p.config s).1.2 ≠ none) :
    ∃ err, (p.Zones s).1 = ([], some err) := by
  unfold Provider.Zones
  rcases hz : p.client.ZonesList p.config s with ⟨⟨zones, err⟩, s1⟩
  rw [hz] at h
  cases err with
  | none => exact absurd rfl h
  | some e => exact ⟨e, rfl⟩

/-- The function `Zones` returns the zones in scope when the zone listing succeeds. -/
theorem Zones_of_ok (p : Provider σ) (s : σ)
    (h : (p.client.ZonesList p.config s).1.2 = none) :
    p.Zones s = ((zonesInScope p s, none), (p.client.ZonesList p.config s).2) := by
  rcases hz : p.client.ZonesList p.config s with ⟨⟨zones, err⟩, s1⟩
  rw [hz] at h
  simp only at h
  subst h
  simp only [Provider.Zones, zonesInScope, hz, Zones_foldl_eq_filter, List.nil_append]

/-- The loop of `Records` when no listing fails: the record lists are appended in order. -/
theorem Records_loop_ok (p : Provider σ) (zones : List ZoneAuth) (acc : List Endpoint)
    (s : σ) (h : ∀ r ∈ listEach p.client zones s, r.2 = none) :
    (Provider.Records.loop p zones acc s).1
      = (acc ++ ((listEach p.client zones s).map Prod.fst).flatten, none) := by
  induction zones generalizing acc s with
  | nil => simp [Provider.Records.loop, listEach]
  | cons z zs ih =>
    rcases hr : p.client.RecordList z s with ⟨⟨records, err⟩, s1⟩
    have h0 : err = none := by
      have := h (p.client.RecordList z s).1 (by simp [listEach])
      rw [hr] at this
      exact this
    subst h0
    have ih1 := ih (acc ++ records) s1 (by
      intro r hmem
      apply h
      simp only [listEach, List.mem_cons, hr]
      exact Or.inr hmem)
    simp [Provider.Records.loop, listEach, hr, ih1]

/-- The loop of `Records` when a listing fails: an error and no endpoint. -/
theorem Records_loop_error (p : Provider σ) (zones : List ZoneAuth) (acc : List Endpoint)
    (s : σ) (h : ∃ r ∈ listEach p.client zones s, r.2 ≠ none) :
    (Provider.Records.loop p zones acc s).1.1 = []
      ∧ (Provider.Records.loop p zones acc s).1.2 ≠ none := by
  induction zones generalizing acc s with
  | nil => simp [listEach] at h
  | cons z zs ih =>
    rcases hr : p.client.RecordList z s with ⟨⟨records, err⟩, s1⟩
    cases err with
    | some e => simp [Provider.Records.loop, hr]
    | none =>
      have h1 : ∃ r ∈ listEach p.client zs s1, r.2 ≠ none := by
        rcases h with ⟨r, hmem, hne⟩
        simp only [listEach, List.mem_cons, hr] at hmem
        rcases hmem with rfl | hmem
        · exact absurd rfl hne
        · exact ⟨r, hmem, hne⟩
      have ih1 := ih (acc ++ records) s1 h1
      simp only [Provider.Records.loop, hr]
      exact ih1

/-- C6: for every client and state, (1) if the zone listing fails, `Records` returns an
error and no endpoint; (2) if it succeeds and the record listing of some zone in scope
fails, `Records` returns an error and no endpoint; (3) if it succeeds and no record
listing of a zone in scope fails, `Records` returns no error and the concatenation, in zone
order, of the record lists of the zones in scope, which are exactly the listed zones whose
name passes the domain filter. -/
theorem Records_all_or_nothing (p : Provider σ) (s : σ) :
    ((p.client.ZonesList p.config s).1.2 ≠ none →
        (p.Records s).1.1 = [] ∧ (p.Records s).1.2 ≠ none)
      ∧ ((p.client.ZonesList p.config s).1.2 = none →
        (∃ r ∈ listEach p.client (zonesInScope p s) (p.client.ZonesList p.config s).2,
            r.2 ≠ none) →
        (p.Records s).1.1 = [] ∧ (p.Records s).1.2 ≠ none)
      ∧ ((p.client.ZonesList p.config s).1.2 = none →
        (∀ r ∈ listEach p.client (zonesInScope p s) (p.client.ZonesList p.config s).2,
            r.2 = none) →
        (p.Records s).1
          = (((listEach p.client (zonesInScope p s)
                (p.client.ZonesList p.config s).2).map Prod.fst).flatten, none)) := by
  refine ⟨?_, ?_, ?_⟩
  · intro h
    rcases Zones_of_error p s h with ⟨err, he⟩
    unfold Provider.Records
    rcases hz : p.Zones s with ⟨⟨zones, e⟩, s1⟩
    rw [hz] at he
    simp only [Prod.mk.injEq] at he
    rcases he with ⟨rfl, rfl⟩
    simp
  · intro h hex
    unfold Provider.Records
    rw [Zones_of_ok p s h]
    exact Records_loop_error p _ [] _ hex
  · intro h hall
    unfold Provider.Records
    rw [Zones_of_ok p s h]
    simpa using Records_loop_ok p _ [] _ hall

/-- C6 at inputs: with every listing working, the records of the two zones in scope, in
zone order; with the listing of `example.org` failing, or with the zone listing failing,
an error and no endpoint, although `example.com` was listed before. -/
theorem Records_all_or_nothing_witness :
    (Provider.Records (cannedProvider false []) ()).1
        = ([aRecord "www.example.com" "1.1.1.1", aRecord "www.example.org" "1.1.1.1"], none)
      ∧ (Provider.Records (cannedProvider false ["example.org"]) ()).1
        = ([], some "rr failed")
      ∧ (Provider.Records (cannedProvider false ["internal.test"]) ()).1
        = ([aRecord "www.example.com" "1.1.1.1", aRecord "www.example.org" "1.1.1.1"], none)
      ∧ (Provider.Records (cannedProvider true []) ()).1
        = ([], some "could not fetch zones: timeout") := by
  have h := Records_all_or_nothing (cannedProvider false []) ()
  refine ⟨?_, ?_, ?_, ?_⟩
  · exact h.2.2 rfl (by decide)
  · decide
  · decide
  · decide

/-! ## `AdjustEndpoints` -/

/-- The TTL step changes the TTL only. -/
theorem ttl_fields (isConfigured : Int → Bool) (config : EfficientIPConfig) (ep : Endpoint) :
    (AdjustEndpoints.ttl isConfigured config ep).DNSName = ep.DNSName
      ∧ (AdjustEndpoints.ttl isConfigured config ep).RecordType = ep.RecordType
      ∧ (AdjustEndpoints.ttl isConfigured config ep).Targets = ep.Targets
      ∧ (AdjustEndpoints.ttl isConfigured config ep).ProviderSpecific = ep.ProviderSpecific := by
  unfold AdjustEndpoints.ttl
  by_cases h : isConfigured ep.RecordTTL = true <;> simp [h]

/-- The marker step changes the provider-specific properties only. -/
theorem ptr_fields (ep : Endpoint) :
    (AdjustEndpoints.ptr ep).DNSName = ep.DNSName
      ∧ (AdjustEndpoints.ptr ep).RecordType = ep.RecordType
      ∧ (AdjustEndpoints.ptr ep).Targets = ep.Targets
      ∧ (AdjustEndpoints.ptr ep).RecordTTL = ep.RecordTTL := by
  unfold AdjustEndpoints.ptr
  by_cases h : ep.RecordType = RecordTypeA
  · by_cases h2 : (AdjustEndpoints.mark ep.ProviderSpecific false).2 = true <;> simp [h, h2]
  · simp [h]

/-- The TTL of an endpoint after the TTL step. -/
theorem ttl_RecordTTL (isConfigured : Int → Bool) (config : EfficientIPConfig)
    (ep : Endpoint) :
    (AdjustEndpoints.ttl isConfigured config ep).RecordTTL
      = if isConfigured ep.RecordTTL = true then ep.RecordTTL else config.DefaultTTL := by
  unfold AdjustEndpoints.ttl
  by_cases h : isConfigured ep.RecordTTL = true <;> simp [h]

/-- A relation holds between a list and its image as soon as it holds elementwise. -/
theorem forall₂_map_self {α β : Type} (R : α → β → Prop) (f : α → β) (l : List α)
    (h : ∀ a ∈ l, R a (f a)) : List.Forall₂ R l (l.map f) := by
  induction l with
  | nil => exact List.Forall₂.nil
  | cons a l ih =>
    exact List.Forall₂.cons (h a (List.mem_cons_self a l))
      (ih (fun b hb => h b (List.mem_cons_of_mem a hb)))

/-- C8: for every configuration, every notion of "TTL is configured" and every endpoint
list, `AdjustEndpoints` returns no error and a list that pairs off with the input in
order, each result endpoint having the name, type and targets of its input endpoint; an
endpoint whose TTL was not configured has the default TTL of the configuration, and an
endpoint whose TTL was configured has the TTL it had. -/
theorem AdjustEndpoints_ttl_rule (isConfigured : Int → Bool) (p : Provider σ)
    (endpoints : List Endpoint) :
    (p.AdjustEndpoints isConfigured endpoints).2 = none
      ∧ List.Forall₂
          (fun ep out =>
            out.DNSName = ep.DNSName ∧ out.RecordType = ep.RecordType
              ∧ out.Targets = ep.Targets
              ∧ (isConfigured ep.RecordTTL = false → out.RecordTTL = p.config.DefaultTTL)
              ∧ (isConfigured ep.RecordTTL = true → out.RecordTTL = ep.RecordTTL))
          endpoints (p.AdjustEndpoints isConfigured endpoints).1 := by
  unfold Provider.AdjustEndpoints
  by_cases hptr : p.config.CreatePTR = true
  · simp only [hptr, Bool.not_true, Bool.false_eq_true, if_false, List.map_map, true_and]
    apply forall₂_map_self
    intro ep _
    have h1 := ttl_fields isConfigured p.config ep
    have h2 := ptr_fields (AdjustEndpoints.ttl isConfigured p.config ep)
    have h3 := ttl_RecordTTL isConfigured p.config ep
    simp only [Function.comp]
    refine ⟨h2.1.trans h1.1, h2.2.1.trans h1.2.1, h2.2.2.1.trans h1.2.2.1, ?_, ?_⟩
    · intro hc; rw [h2.2.2.2, h3]; simp [hc]
    · intro hc; rw [h2.2.2.2, h3]; simp [hc]
  · simp only [hptr, Bool.not_false, if_true, true_and]
    apply forall₂_map_self
    intro ep _
    have h1 := ttl_fields isConfigured p.config ep
    have h3 := ttl_RecordTTL isConfigured p.config ep
    refine ⟨h1.1, h1.2.1, h1.2.2.1, ?_, ?_⟩
    · intro hc; rw [h3]; simp [hc]
    · intro hc; rw [h3]; simp [hc]

/-- C8 at an input: default TTL 600 and the PTR marker enabled; the A endpoint `x` with no
TTL gets TTL 600 and the marker, the endpoint with TTL 120 keeps it, and the CNAME
endpoint gets TTL 600 and no marker. -/
theorem AdjustEndpoints_ttl_rule_witness :
    Provider.AdjustEndpoints positiveTTL (adjustProvider true 600)
        [unsetTTLRecord, markedRecord, cnameRecord]
      = ([{ unsetTTLRecord with
              RecordTTL := 600,
              ProviderSpecific := [⟨"efficientip-ptr-record-exists", "true"⟩] },
          { markedRecord with
              ProviderSpecific := [⟨"other", "1"⟩, ⟨"efficientip-ptr-record-exists", "true"⟩] },
          { cnameRecord with RecordTTL := 600 }], none)
      ∧ (Provider.AdjustEndpoints positiveTTL (adjustProvider true 600)
          [unsetTTLRecord, markedRecord, cnameRecord]).2 = none :=
  ⟨by decide, (AdjustEndpoints_ttl_rule positiveTTL (adjustProvider true 600)
    [unsetTTLRecord, markedRecord, cnameRecord]).1⟩

/-- An A row whose key is the single key of the map appends its value to the entry. -/
theorem step_A_found (k : String) (h : Endpoint) (eps : List Endpoint) (rr : DnsRrDataData)
    (ht : rr.GetRrType = "A") (hk : rr.GetRrFullName ++ ":" ++ rr.GetRrType = k) :
    RecordList.step ([(k, h)], eps) rr
      = ([(k, { h with Targets := h.Targets ++ [rr.GetRrAllValue] })], eps) := by
  unfold RecordList.step
  simp only [ht, if_true]
  rw [ht] at hk
  simp [hk, HostMap.find, HostMap.appendTarget]

/-- A run of A rows of one name over a map that holds that name only. -/
theorem foldl_step_A (name : String) (rows : List DnsRrDataData)
    (hA : ∀ rr ∈ rows, rr.GetRrType = "A" ∧ rr.GetRrFullName = name)
    (h : Endpoint) (eps : List Endpoint) :
    rows.foldl RecordList.step ([(name ++ ":" ++ "A", h)], eps)
      = ([(name ++ ":" ++ "A",
            { h with Targets := h.Targets ++ rows.map DnsRrDataData.GetRrAllValue })], eps) := by
  induction rows generalizing h with
  | nil => simp
  | cons rr rest ih =>
    have h1 := hA rr (List.mem_cons_self rr rest)
    rw [List.foldl_cons, step_A_found _ _ _ rr h1.1 (by rw [h1.1, h1.2])]
    rw [ih (fun r hr => hA r (List.mem_cons_of_mem rr hr))]
    simp

/-- C1: for every non-empty sequence of rows that are all of type A and all have the full
name `name`, and for every order in which the map is ranged over, the translation inside
`RecordList` yields exactly one endpoint: its `DNSName` is `name`, its type is `A`, its
targets are the values of the rows in encounter order, and its TTL is the TTL of the first
row as `strconv.Atoi` reads it. -/
theorem translate_A_rows (rangeHost : HostMap → HostMap)
    (hperm : ∀ m, (rangeHost m).Perm m) (name : String) (rows : List DnsRrDataData)
    (hne : rows ≠ [])
    (hA : ∀ rr ∈ rows, rr.GetRrType = "A" ∧ rr.GetRrFullName = name) :
    RecordList.translate rangeHost rows
      = [{ DNSName := name, Targets := rows.map DnsRrDataData.GetRrAllValue,
           RecordType := "A", RecordTTL := (Atoi (rows.head hne).GetRrTtl).1,
           ProviderSpecific := [] }] := by
  cases rows with
  | nil => exact absurd rfl hne
  | cons r0 rest =>
    have h0 := hA r0 (List.mem_cons_self r0 rest)
    have hfirst : RecordList.step ([], []) r0
        = ([(name ++ ":" ++ "A",
              NewEndpointWithTTL name RecordTypeA (Atoi r0.GetRrTtl).1 r0.GetRrAllValue)],
            []) := by
      unfold RecordList.step
      simp [h0.1, h0.2, HostMap.find]
    unfold RecordList.translate
    rw [List.foldl_cons, hfirst,
      foldl_step_A name rest (fun r hr => hA r (List.mem_cons_of_mem r0 hr))]
    have hp := hperm [(name ++ ":" ++ "A",
      { NewEndpointWithTTL name RecordTypeA (Atoi r0.GetRrTtl).1 r0.GetRrAllValue with
        Targets := (NewEndpointWithTTL name RecordTypeA (Atoi r0.GetRrTtl).1
          r0.GetRrAllValue).Targets ++ rest.map DnsRrDataData.GetRrAllValue })]
    rw [List.perm_singleton] at hp
    simp only [hp]
    simp [NewEndpointWithTTL, RecordTypeA]

/-- C1 at the scenario: the rows `a.example.com / 1.1.1.1` and `a.example.com / 2.2.2.2`
with TTL `300`, the map ranged over in reverse order, give the one endpoint with targets
`[1.1.1.1, 2.2.2.2]` and TTL 300. -/
theorem translate_A_rows_witness :
    (∀ m : HostMap, (List.reverse m).Perm m)
      ∧ scenarioRows ≠ []
      ∧ (∀ rr ∈ scenarioRows, rr.GetRrType = "A" ∧ rr.GetRrFullName = "a.example.com")
      ∧ RecordList.translate List.reverse scenarioRows
        = [{ DNSName := "a.example.com", Targets := ["1.1.1.1", "2.2.2.2"],
             RecordType := "A", RecordTTL := 300, ProviderSpecific := [] }] :=
  ⟨fun m => List.reverse_perm m, by decide, by decide,
    translate_A_rows List.reverse (fun m => List.reverse_perm m) "a.example.com"
      scenarioRows (by decide) (by decide)⟩

/-- Appending a target keeps the record type of every entry of the map. -/
theorem appendTarget_types (key value : String) (m : HostMap)
    (h : ∀ kv ∈ m, kv.2.RecordType = RecordTypeA) :
    ∀ kv ∈ HostMap.appendTarget key value m, kv.2.RecordType = RecordTypeA := by
  induction m with
  | nil => intro kv hkv; simp [HostMap.appendTarget] at hkv
  | cons a rest ih =>
    intro kv hkv
    have ha := h a (List.mem_cons_self a rest)
    have hrest : ∀ kv ∈ rest, kv.2.RecordType = RecordTypeA :=
      fun x hx => h x (List.mem_cons_of_mem a hx)
    rcases a with ⟨k, e⟩
    by_cases hk : k = key
    · simp only [HostMap.appendTarget, hk, if_true, List.mem_cons] at hkv
      rcases hkv with rfl | hkv
      · exact ha
      · exact hrest kv hkv
    · simp only [HostMap.appendTarget, hk, if_false, List.mem_cons] at hkv
      rcases hkv with rfl | hkv
      · exact ha
      · exact ih hrest kv hkv

/-- One row: the map keeps holding A endpoints only, and the slice grows by the endpoint
of the row when the row is a CNAME or TXT row, and not at all otherwise. -/
theorem step_spec (st : HostMap × List Endpoint) (rr : DnsRrDataData)
    (h : ∀ kv ∈ st.1, kv.2.RecordType = RecordTypeA) :
    (∀ kv ∈ (RecordList.step st rr).1, kv.2.RecordType = RecordTypeA)
      ∧ (RecordList.step st rr).2
        = st.2 ++ ([rr].filter (fun r => isCnameOrTxt r.GetRrType)).map
            (rowEndpoint (fun s => (Atoi s).1)) := by
  unfold RecordList.step
  by_cases hA : rr.GetRrType = "A"
  · simp only [hA, if_true]
    cases hf : HostMap.find (rr.GetRrFullName ++ ":" ++ "A") st.1 with
    | some e =>
      refine ⟨appendTarget_types _ _ _ h, ?_⟩
      simp [isCnameOrTxt, hA]
    | none =>
      refine ⟨?_, ?_⟩
      · intro kv hkv
        simp only [List.mem_append, List.mem_singleton] at hkv
        rcases hkv with hkv | rfl
        · exact h kv hkv
        · rfl
      · simp [isCnameOrTxt, hA]
  · by_cases hT : rr.GetRrType = "TXT"
    · simp [hT, isCnameOrTxt, rowEndpoint, NewEndpointWithTTL, RecordTypeTXT]
      exact fun a b hab => h (a, b) hab
    · by_cases hC : rr.GetRrType = "CNAME"
      · simp [hC, isCnameOrTxt, rowEndpoint, NewEndpointWithTTL]
        exact fun a b hab => h (a, b) hab
      · simp [hA, hT, hC, isCnameOrTxt]
        exact fun a b hab => h (a, b) hab

/-- The whole loop: the map holds A endpoints only, and the slice is the endpoints of the
CNAME and TXT rows in encounter order. -/
theorem foldl_step_spec (rows : List DnsRrDataData) (st : HostMap × List Endpoint)
    (h : ∀ kv ∈ st.1, kv.2.RecordType = RecordTypeA) :
    (∀ kv ∈ (rows.foldl RecordList.step st).1, kv.2.RecordType = RecordTypeA)
      ∧ (rows.foldl RecordList.step st).2
        = st.2 ++ (rows.filter (fun r => isCnameOrTxt r.GetRrType)).map
            (rowEndpoint (fun s => (Atoi s).1)) := by
  induction rows generalizing st with
  | nil => exact ⟨h, by simp⟩
  | cons rr rest ih =>
    have hs := step_spec st rr h
    have hr := ih (RecordList.step st rr) hs.1
    rw [List.foldl_cons]
    refine ⟨hr.1, ?_⟩
    rw [hr.2, hs.2]
    by_cases hc : isCnameOrTxt rr.GetRrType = true
    · simp [List.filter_cons, hc]
    · simp [List.filter_cons, hc]

/-- A row of a type that is not translated leaves the state of the loop as it is. -/
theorem step_unrecognized (st : HostMap × List Endpoint) (rr : DnsRrDataData)
    (h : isRecognized rr.GetRrType = false) : RecordList.step st rr = st := by
  unfold isRecognized isCnameOrTxt at h
  simp only [Bool.or_eq_false_iff, decide_eq_false_iff_not] at h
  unfold RecordList.step
  simp [h.1, h.2.1, h.2.2]

/-- Rows of types that are not translated can be left out of the loop. -/
theorem foldl_step_filter (rows : List DnsRrDataData) (st : HostMap × List Endpoint) :
    (rows.filter (fun r => isRecognized r.GetRrType)).foldl RecordList.step st
      = rows.foldl RecordList.step st := by
  induction rows generalizing st with
  | nil => rfl
  | cons rr rest ih =>
    by_cases hr : isRecognized rr.GetRrType = true
    · simp [List.filter_cons, hr, ih]
    · simp only [Bool.not_eq_true] at hr
      simp [List.filter_cons, hr, ih, step_unrecognized st rr hr]

/-- The CNAME and TXT endpoints of the translation, for every order of the map. -/
theorem translate_filter (rangeHost : HostMap → HostMap)
    (hperm : ∀ m, (rangeHost m).Perm m) (rows : List DnsRrDataData) :
    (RecordList.translate rangeHost rows).filter (fun ep => isCnameOrTxt ep.RecordType)
      = (rows.filter (fun rr => isCnameOrTxt rr.GetRrType)).map
          (rowEndpoint (fun s => (Atoi s).1)) := by
  have hs := foldl_step_spec rows ([], []) (by intro kv hkv; simp at hkv)
  unfold RecordList.translate
  simp only [List.filter_append, hs.2, List.nil_append]
  have h1 : List.filter (fun ep => isCnameOrTxt ep.RecordType)
      ((rows.filter (fun rr => isCnameOrTxt rr.GetRrType)).map
        (rowEndpoint (fun s => (Atoi s).1)))
      = (rows.filter (fun rr => isCnameOrTxt rr.GetRrType)).map
        (rowEndpoint (fun s => (Atoi s).1)) := by
    rw [List.filter_eq_self]
    intro ep hep
    rw [List.mem_map] at hep
    rcases hep with ⟨rr, hrr, rfl⟩
    exact (List.mem_filter.mp hrr).2
  have h2 : List.filter (fun ep => isCnameOrTxt ep.RecordType)
      ((rangeHost (rows.foldl RecordList.step ([], [])).1).map Prod.snd) = [] := by
    rw [List.filter_eq_nil_iff]
    intro ep hep
    rw [List.mem_map] at hep
    rcases hep with ⟨kv, hkv, rfl⟩
    have := hs.1 kv ((hperm _).mem_iff.mp hkv)
    rw [this]
    decide
  rw [h1, h2, List.append_nil]

/-! ## `strconv.Atoi` -/

/-- The digit loop: a syntax error comes with the value `0`, a range error with the
value `maxUint64`. -/
theorem loop_error (cs : List Char) (n : Nat) :
    ((ParseUint.loop cs n).2 = some NumError.ErrSyntax → (ParseUint.loop cs n).1 = 0)
      ∧ ((ParseUint.loop cs n).2 = some NumError.ErrRange →
          (ParseUint.loop cs n).1 = maxUint64) := by
  induction cs generalizing n with
  | nil => simp [ParseUint.loop]
  | cons c cs ih =>
    unfold ParseUint.loop
    by_cases hd : Fmt.isDigit c = true
    · by_cases h1 : n ≥ maxUint64 / 10 + 1
      · simp [hd, h1]
      · by_cases h2 : n * 10 + Fmt.digitVal c > maxUint64
        · simp [hd, h1, h2]
        · simp only [hd, h1, h2, if_true, if_false]
          exact ih _
    · simp [hd]

/-- The function `ParseUint`: a syntax error comes with the value `0`, a range error with
the value `maxUint64`. -/
theorem ParseUint_error (s : List Char) :
    ((ParseUint s).2 = some NumError.ErrSyntax → (ParseUint s).1 = 0)
      ∧ ((ParseUint s).2 = some NumError.ErrRange → (ParseUint s).1 = maxUint64) := by
  unfold ParseUint
  by_cases h : s = []
  · simp [h]
  · simp only [h, if_false]
    exact loop_error s 0

/-- The function `ParseInt` gives `0` with a syntax error and a bound of `int64` with a
range error. -/
theorem ParseInt_error (cs : List Char) :
    ((ParseInt cs).2 = some NumError.ErrSyntax → (ParseInt cs).1 = 0)
      ∧ ((ParseInt cs).2 = some NumError.ErrRange →
          (ParseInt cs).1 = 2 ^ 63 - 1 ∨ (ParseInt cs).1 = -(2 ^ 63)) := by
  unfold ParseInt
  by_cases h : cs = []
  · simp [h]
  · simp only [h, if_false]
    generalize ParseUint (if cs.head? = some '+' ∨ cs.head? = some '-'
        then cs.tail else cs) = r
    rcases r with ⟨un, err⟩
    by_cases he : err = some NumError.ErrSyntax
    · simp [he]
    · by_cases hneg : cs.head? = some '-'
      · by_cases h2 : 9223372036854775808 < un
        · simp [he, hneg, h2]
        · simp [he, hneg, h2]
      · by_cases h1 : 9223372036854775808 ≤ un
        · simp [he, hneg, h1]
        · simp [he, hneg, h1]

/-- The function `Atoi` gives `0` with a syntax error and a bound of `int64` with a range
error. -/
theorem Atoi_error (s : String) :
    ((Atoi s).2 = some NumError.ErrSyntax → (Atoi s).1 = 0)
      ∧ ((Atoi s).2 = some NumError.ErrRange →
          (Atoi s).1 = 2 ^ 63 - 1 ∨ (Atoi s).1 = -(2 ^ 63)) :=
  ParseInt_error s.toList

/-- A decimal digit has a value of at most nine. -/
theorem digitVal_le (c : Char) (h : Fmt.isDigit c = true) : Fmt.digitVal c ≤ 9 := by
  unfold Fmt.isDigit at h
  simp only [Bool.and_eq_true, decide_eq_true_eq] at h
  have h2 : c.val.toNat ≤ ('9' : Char).val.toNat := h.2
  unfold Fmt.digitVal Char.toNat
  have e1 : ('9' : Char).val.toNat = 57 := by decide
  have e2 : ('0' : Char).val.toNat = 48 := by decide
  omega

/-- Reading further digits does not lower the number read. -/
theorem foldl_digits_ge (ds : List Char) (n : Nat) :
    n ≤ ds.foldl (fun n c => n * 10 + Fmt.digitVal c) n := by
  induction ds generalizing n with
  | nil => exact Nat.le_refl n
  | cons c cs ih =>
    rw [List.foldl_cons]
    exact Nat.le_trans (by omega) (ih (n * 10 + Fmt.digitVal c))

/-- The digit loop on digits whose number does not exceed `2^63`: that number, and no
error. -/
theorem loop_of_digits (ds : List Char) (n : Nat) (hd : ds.all Fmt.isDigit = true)
    (hb : ds.foldl (fun n c => n * 10 + Fmt.digitVal c) n ≤ 2 ^ 63) :
    ParseUint.loop ds n = (ds.foldl (fun n c => n * 10 + Fmt.digitVal c) n, none) := by
  induction ds generalizing n with
  | nil => rfl
  | cons c cs ih =>
    rw [List.all_cons, Bool.and_eq_true] at hd
    rw [List.foldl_cons] at hb ⊢
    have hge := foldl_digits_ge cs (n * 10 + Fmt.digitVal c)
    have h1 : ¬ n ≥ maxUint64 / 10 + 1 := by
      unfold maxUint64
      norm_num at hb ⊢
      omega
    have h2 : ¬ n * 10 + Fmt.digitVal c > maxUint64 := by
      unfold maxUint64
      norm_num at hb ⊢
      omega
    unfold ParseUint.loop
    simp only [hd.1, h1, h2, if_true, if_false]
    exact ih _ hd.2 hb

/-- The digit loop on at most nineteen characters one of which is no digit: a syntax
error. -/
theorem loop_of_not_digits (ds : List Char) (n : Nat) (hd : ds.all Fmt.isDigit = false)
    (hlen : ds.length ≤ 19) (hn : n < 10 ^ (19 - ds.length)) :
    ParseUint.loop ds n = (0, some NumError.ErrSyntax) := by
  induction ds generalizing n with
  | nil => simp at hd
  | cons c cs ih =>
    unfold ParseUint.loop
    by_cases hc : Fmt.isDigit c = true
    · have hcs : cs.all Fmt.isDigit = false := by
        rw [List.all_cons, hc, Bool.true_and] at hd
        exact hd
      simp only [List.length_cons] at hlen hn
      have hpow : 10 ^ (19 - cs.length) = 10 ^ (19 - (cs.length + 1)) * 10 := by
        rw [← Nat.pow_succ]
        congr 1
        omega
      have hle : 10 ^ (19 - (cs.length + 1)) ≤ 10 ^ 18 :=
        Nat.pow_le_pow_right (by decide) (by omega)
      have h19 : 10 ^ (19 - cs.length) ≤ 10 ^ 19 :=
        Nat.pow_le_pow_right (by decide) (by omega)
      have hdv := digitVal_le c hc
      have h1 : ¬ n ≥ maxUint64 / 10 + 1 := by
        unfold maxUint64
        norm_num at hle ⊢
        omega
      have hn1 : n * 10 + Fmt.digitVal c < 10 ^ (19 - cs.length) := by
        rw [hpow]
        omega
      have h2 : ¬ n * 10 + Fmt.digitVal c > maxUint64 := by
        unfold maxUint64
        norm_num at h19 ⊢
        omega
      simp only [hc, h1, h2, if_true, if_false]
      exact ih _ hcs (by omega) hn1
    · simp [hc]

/-- The function `natValue` gives a number exactly for a non-empty string of digits. -/
theorem natValue_eq_some (ds : List Char) (n : Nat) (h : natValue ds = some n) :
    ds ≠ [] ∧ ds.all Fmt.isDigit = true
      ∧ n = ds.foldl (fun n c => n * 10 + Fmt.digitVal c) 0 := by
  unfold natValue at h
  by_cases hc : ds ≠ [] ∧ ds.all Fmt.isDigit = true
  · rw [if_pos hc] at h
    exact ⟨hc.1, hc.2, (Option.some.inj h).symm⟩
  · rw [if_neg hc] at h
    exact Option.noConfusion h

/-- The function `natValue` gives nothing exactly for the empty string and for a string
with a character that is no digit. -/
theorem natValue_eq_none (ds : List Char) (h : natValue ds = none) :
    ds = [] ∨ ds.all Fmt.isDigit = false := by
  unfold natValue at h
  by_cases hne : ds = []
  · exact Or.inl hne
  · by_cases hall : ds.all Fmt.isDigit = true
    · rw [if_pos ⟨hne, hall⟩] at h
      exact Option.noConfusion h
    · exact Or.inr (by simpa using hall)

/-- The function `ParseUint` on a string of digits whose number does not exceed `2^63`. -/
theorem ParseUint_of_natValue (ds : List Char) (n : Nat) (h : natValue ds = some n)
    (hb : n ≤ 2 ^ 63) : ParseUint ds = (n, none) := by
  rcases natValue_eq_some ds n h with ⟨hne, hall, rfl⟩
  unfold ParseUint
  rw [if_neg hne]
  exact loop_of_digits ds 0 hall hb

/-- The function `ParseUint` on a string of at most nineteen characters that is not a
number. -/
theorem ParseUint_of_not_natValue (ds : List Char) (h : natValue ds = none)
    (hlen : ds.length ≤ 19) : ParseUint ds = (0, some NumError.ErrSyntax) := by
  unfold ParseUint
  by_cases hne : ds = []
  · rw [if_pos hne]
  · rw [if_neg hne]
    rcases natValue_eq_none ds h with h1 | h1
    · exact absurd h1 hne
    · exact loop_of_not_digits ds 0 h1 hlen (Nat.pos_pow_of_pos _ (by decide))

/-- The function `ParseInt` on a numeral whose integer fits in `int64`: that integer, and
no error. -/
theorem ParseInt_of_decimalValue (cs : List Char) (v : Int) (h : decimalValue cs = some v)
    (hlo : -(2 ^ 63) ≤ v) (hhi : v < 2 ^ 63) : ParseInt cs = (v, none) := by
  unfold decimalValue at h
  by_cases hm : cs.head? = some '-'
  · rw [if_pos hm] at h
    rcases hn : natValue cs.tail with _ | n
    · rw [hn] at h; exact Option.noConfusion h
    · rw [hn] at h
      have hv : v = -(n : Int) := (Option.some.inj h).symm
      have hb : n ≤ 2 ^ 63 := by
        have : -(2 ^ 63 : Int) ≤ -(n : Int) := hv ▸ hlo
        have h3 : (n : Int) ≤ 2 ^ 63 := by omega
        exact_mod_cast h3
      have hne : cs ≠ [] := by
        intro h0; rw [h0] at hm; exact Option.noConfusion hm
      have hpu := ParseUint_of_natValue cs.tail n hn hb
      have hb2 : ¬ (9223372036854775808 < n) := by
        norm_num at hb
        omega
      unfold ParseInt
      simp [hne, hm, hpu, hb2, hv]
  · rw [if_neg hm] at h
    by_cases hp : cs.head? = some '+'
    · rw [if_pos hp] at h
      rcases hn : natValue cs.tail with _ | n
      · rw [hn] at h; exact Option.noConfusion h
      · rw [hn] at h
        have hv : v = (n : Int) := (Option.some.inj h).symm
        have hb : n < 2 ^ 63 := by
          have h3 : (n : Int) < 2 ^ 63 := hv ▸ hhi
          exact_mod_cast h3
        have hne : cs ≠ [] := by
          intro h0; rw [h0] at hp; exact Option.noConfusion hp
        have hpu := ParseUint_of_natValue cs.tail n hn (Nat.le_of_lt hb)
        have hb2 : ¬ (9223372036854775808 ≤ n) := by
          norm_num at hb
          omega
        unfold ParseInt
        simp [hne, hm, hp, hpu, hb2, hv]
    · rw [if_neg hp] at h
      rcases hn : natValue cs with _ | n
      · rw [hn] at h; exact Option.noConfusion h
      · rw [hn] at h
        have hv : v = (n : Int) := (Option.some.inj h).symm
        have hb : n < 2 ^ 63 := by
          have h3 : (n : Int) < 2 ^ 63 := hv ▸ hhi
          exact_mod_cast h3
        have hne : cs ≠ [] := (natValue_eq_some cs n hn).1
        have hpu := ParseUint_of_natValue cs n hn (Nat.le_of_lt hb)
        have hb2 : ¬ (9223372036854775808 ≤ n) := by
          norm_num at hb
          omega
        unfold ParseInt
        simp [hne, hm, hp, hpu, hb2, hv]

/-- The function `ParseInt` on a string of at most nineteen characters that is not
numeric: `0` and a syntax error. -/
theorem ParseInt_of_not_numeric (cs : List Char) (h : decimalValue cs = none)
    (hlen : cs.length ≤ 19) : ParseInt cs = (0, some NumError.ErrSyntax) := by
  unfold ParseInt
  by_cases hne : cs = []
  · rw [if_pos hne]
  · rw [if_neg hne]
    unfold decimalValue at h
    have htail : cs.tail.length ≤ 19 := by
      rw [List.length_tail]; omega
    by_cases hm : cs.head? = some '-'
    · rw [if_pos hm] at h
      have hn : natValue cs.tail = none := by
        rcases hx : natValue cs.tail with _ | n
        · rfl
        · rw [hx] at h; exact Option.noConfusion h
      simp [hm, ParseUint_of_not_natValue cs.tail hn htail]
    · rw [if_neg hm] at h
      by_cases hp : cs.head? = some '+'
      · rw [if_pos hp] at h
        have hn : natValue cs.tail = none := by
          rcases hx : natValue cs.tail with _ | n
          · rfl
          · rw [hx] at h; exact Option.noConfusion h
        simp [hp, ParseUint_of_not_natValue cs.tail hn htail]
      · rw [if_neg hp] at h
        have hn : natValue cs = none := by
          rcases hx : natValue cs with _ | n
          · rfl
          · rw [hx] at h; exact Option.noConfusion h
        simp [hm, hp, ParseUint_of_not_natValue cs hn hlen]

/-- The function `ParseInt` with a range error gives the bound on the side of the sign:
`-(2^63)` for a string that starts with `-`, and `2^63 - 1` otherwise. -/
theorem ParseInt_range_sign (cs : List Char)
    (h : (ParseInt cs).2 = some NumError.ErrRange) :
    (ParseInt cs).1 = if cs.head? = some '-' then -(2 ^ 63) else 2 ^ 63 - 1 := by
  unfold ParseInt at h ⊢
  by_cases hne : cs = []
  · simp [hne] at h
  · simp only [hne, if_false] at h ⊢
    generalize ParseUint (if cs.head? = some '+' ∨ cs.head? = some '-'
        then cs.tail else cs) = r at h ⊢
    rcases r with ⟨un, err⟩
    by_cases he : err = some NumError.ErrSyntax
    · simp [he] at h
    · by_cases hneg : cs.head? = some '-'
      · by_cases h2 : 9223372036854775808 < un
        · simp [he, hneg, h2]
        · simp [he, hneg, h2] at h
      · by_cases h1 : 9223372036854775808 ≤ un
        · simp [he, hneg, h1]
        · simp [he, hneg, h1] at h

/-- The digit loop on digits, started below `maxUint64`: either the number read, which
then does not exceed `maxUint64`, or a range error with `maxUint64`, and then the number
written exceeds `maxUint64`. -/
theorem loop_of_all_digits (ds : List Char) (n : Nat) (hd : ds.all Fmt.isDigit = true)
    (hn : n ≤ maxUint64) :
    (ParseUint.loop ds n = (ds.foldl (fun n c => n * 10 + Fmt.digitVal c) n, none)
        ∧ ds.foldl (fun n c => n * 10 + Fmt.digitVal c) n ≤ maxUint64)
      ∨ (ParseUint.loop ds n = (maxUint64, some NumError.ErrRange)
        ∧ maxUint64 < ds.foldl (fun n c => n * 10 + Fmt.digitVal c) n) := by
  induction ds generalizing n with
  | nil => exact Or.inl ⟨rfl, hn⟩
  | cons c cs ih =>
    rw [List.all_cons, Bool.and_eq_true] at hd
    rw [List.foldl_cons]
    have hge := foldl_digits_ge cs (n * 10 + Fmt.digitVal c)
    unfold ParseUint.loop
    by_cases h1 : n ≥ maxUint64 / 10 + 1
    · right
      refine ⟨by simp [hd.1, h1], ?_⟩
      unfold maxUint64 at h1 ⊢
      norm_num at h1
      omega
    · by_cases h2 : n * 10 + Fmt.digitVal c > maxUint64
      · right
        refine ⟨by simp [hd.1, h1, h2], ?_⟩
        omega
      · simp only [hd.1, h1, h2, if_true, if_false]
        exact ih _ hd.2 (Nat.le_of_not_lt h2)

/-- The function `ParseUint` on a non-empty string of digits: the number written when it
does not exceed `maxUint64`, and otherwise `maxUint64` with a range error. -/
theorem ParseUint_of_natValue_total (ds : List Char) (n : Nat) (h : natValue ds = some n) :
    (ParseUint ds = (n, none) ∧ n ≤ maxUint64)
      ∨ (ParseUint ds = (maxUint64, some NumError.ErrRange) ∧ maxUint64 < n) := by
  rcases natValue_eq_some ds n h with ⟨hne, hall, rfl⟩
  unfold ParseUint
  rw [if_neg hne]
  exact loop_of_all_digits ds 0 hall (Nat.zero_le _)

/-- The function `ParseInt` on a numeral whose integer does not fit in `int64`: the bound
of `int64` nearest to that integer, with a range error. -/
theorem ParseInt_of_decimalValue_out (cs : List Char) (v : Int)
    (h : decimalValue cs = some v) :
    (2 ^ 63 ≤ v → ParseInt cs = (2 ^ 63 - 1, some NumError.ErrRange))
      ∧ (v < -(2 ^ 63) → ParseInt cs = (-(2 ^ 63), some NumError.ErrRange)) := by
  unfold decimalValue at h
  by_cases hm : cs.head? = some '-'
  · rw [if_pos hm] at h
    rcases hn : natValue cs.tail with _ | n
    · rw [hn] at h; exact Option.noConfusion h
    · rw [hn] at h
      have hv : v = -(n : Int) := (Option.some.inj h).symm
      have hne : cs ≠ [] := by
        intro h0; rw [h0] at hm; exact Option.noConfusion hm
      constructor
      · intro hbig
        exfalso
        have : (0 : Int) ≤ (n : Int) := Int.ofNat_nonneg n
        omega
      · intro hsmall
        have hb : 9223372036854775808 < n := by
          have h3 : (2 ^ 63 : Int) < (n : Int) := by omega
          have h4 : (2 ^ 63 : Nat) < n := by exact_mod_cast h3
          norm_num at h4
          exact h4
        rcases ParseUint_of_natValue_total cs.tail n hn with ⟨hpu, _⟩ | ⟨hpu, _⟩
        · unfold ParseInt
          simp [hne, hm, hpu, hb]
        · unfold ParseInt
          simp [hne, hm, hpu, maxUint64]
  · rw [if_neg hm] at h
    by_cases hp : cs.head? = some '+'
    · rw [if_pos hp] at h
      rcases hn : natValue cs.tail with _ | n
      · rw [hn] at h; exact Option.noConfusion h
      · rw [hn] at h
        have hv : v = (n : Int) := (Option.some.inj h).symm
        have hne : cs ≠ [] := by
          intro h0; rw [h0] at hp; exact Option.noConfusion hp
        constructor
        · intro hbig
          have hb : 9223372036854775808 ≤ n := by
            have h3 : (2 ^ 63 : Int) ≤ (n : Int) := by omega
            have h4 : (2 ^ 63 : Nat) ≤ n := by exact_mod_cast h3
            norm_num at h4
            exact h4
          rcases ParseUint_of_natValue_total cs.tail n hn with ⟨hpu, _⟩ | ⟨hpu, _⟩
          · unfold ParseInt
            simp [hne, hm, hp, hpu, hb]
          · unfold ParseInt
            simp [hne, hm, hp, hpu, maxUint64]
        · intro hsmall
          exfalso
          have : (0 : Int) ≤ (n : Int) := Int.ofNat_nonneg n
          omega
    · rw [if_neg hp] at h
      rcases hn : natValue cs with _ | n
      · rw [hn] at h; exact Option.noConfusion h
      · rw [hn] at h
        have hv : v = (n : Int) := (Option.some.inj h).symm
        have hne : cs ≠ [] := (natValue_eq_some cs n hn).1
        constructor
        · intro hbig
          have hb : 9223372036854775808 ≤ n := by
            have h3 : (2 ^ 63 : Int) ≤ (n : Int) := by omega
            have h4 : (2 ^ 63 : Nat) ≤ n := by exact_mod_cast h3
            norm_num at h4
            exact h4
          rcases ParseUint_of_natValue_total cs n hn with ⟨hpu, _⟩ | ⟨hpu, _⟩
          · unfold ParseInt
            simp [hne, hm, hp, hpu, hb]
          · unfold ParseInt
            simp [hne, hm, hp, hpu, maxUint64]
        · intro hsmall
          exfalso
          have : (0 : Int) ≤ (n : Int) := Int.ofNat_nonneg n
          omega

/-- A string that is not numeric and yet is not read as zero: the overflow is met at the
twentieth digit, before the character that is no digit. -/
theorem Atoi_range_before_syntax :
    decimalValue "99999999999999999999x".toList = none
      ∧ Atoi "99999999999999999999x" = (9223372036854775807, some NumError.ErrRange) := by
  constructor <;> decide

/-- C2 as stated fails: for the TXT row whose TTL string is `99999999999999999999`, the
endpoint has the TTL 9223372036854775807, which is neither the integer the string writes
nor zero. -/
theorem translatesEachRow_counterexample :
    ¬ translatesEachRow id longTTLRows
      ∧ (RecordList.translate id longTTLRows).map Endpoint.RecordTTL = [9223372036854775807]
      ∧ specTTL "99999999999999999999" = 99999999999999999999 := by
  refine ⟨?_, ?_, ?_⟩
  · unfold translatesEachRow
    decide
  · decide
  · decide

/-- C2, amended: for every sequence of rows and every order in which the map is ranged
over, the CNAME and TXT endpoints of the result are exactly one endpoint per CNAME or TXT
row, in encounter order, each with the row's name and type, the row's value as its single
target, and the TTL that `strconv.Atoi` returns for the row's TTL string with the error
dropped; rows whose type is none of A, CNAME, TXT contribute no endpoint, and
`RecordList` returns an error only when its guard on the backend call holds, never because
of a row. The value of `Atoi` is the integer the string writes when the string is numeric
and the integer fits in `int64`; it is zero when `Atoi` reports a syntax error, which it
does for every non-numeric string of at most nineteen characters; when `Atoi` reports a
range error it is the bound of `int64` on the side of the sign, `-(2^63)` for a string that
starts with `-` and `2^63 - 1` otherwise, and this is what a numeral gets whose integer
does not fit in `int64`: `2^63 - 1` above the range and `-(2^63)` below it, the nearest
bound. -/
theorem translate_cname_txt_rows (rangeHost : HostMap → HostMap)
    (hperm : ∀ m, (rangeHost m).Perm m) (rows : List DnsRrDataData) :
    (RecordList.translate rangeHost rows).filter (fun ep => isCnameOrTxt ep.RecordType)
        = (rows.filter (fun rr => isCnameOrTxt rr.GetRrType)).map
            (rowEndpoint (fun s => (Atoi s).1))
      ∧ RecordList.translate rangeHost (rows.filter (fun rr => isRecognized rr.GetRrType))
        = RecordList.translate rangeHost rows
      ∧ (∀ (e : EfficientIPAPI) (zone : ZoneAuth),
          (e.RecordList rangeHost zone).2 ≠ none →
            (e.DnsRrList ("zone_id=" ++ zone.ID) "rr_full_name").2 ≠ ""
              ∧ (e.DnsRrList ("zone_id=" ++ zone.ID) "rr_full_name").1.Success ≠ some true)
      ∧ (∀ (s : String) (v : Int), decimalValue s.toList = some v →
          -(2 ^ 63) ≤ v → v < 2 ^ 63 → Atoi s = (v, none))
      ∧ (∀ s : String, (Atoi s).2 = some NumError.ErrSyntax → (Atoi s).1 = 0)
      ∧ (∀ s : String, decimalValue s.toList = none → s.toList.length ≤ 19 →
          Atoi s = (0, some NumError.ErrSyntax))
      ∧ (∀ s : String, (Atoi s).2 = some NumError.ErrRange →
          (Atoi s).1 = if s.toList.head? = some '-' then -(2 ^ 63) else 2 ^ 63 - 1)
      ∧ (∀ (s : String) (v : Int), decimalValue s.toList = some v → 2 ^ 63 ≤ v →
          Atoi s = (2 ^ 63 - 1, some NumError.ErrRange))
      ∧ (∀ (s : String) (v : Int), decimalValue s.toList = some v → v < -(2 ^ 63) →
          Atoi s = (-(2 ^ 63), some NumError.ErrRange)) := by
  refine ⟨translate_filter rangeHost hperm rows, ?_, ?_, ?_, ?_, ?_, ?_, ?_, ?_⟩
  · unfold RecordList.translate
    rw [foldl_step_filter]
  · intro e zone h
    exact (RecordList_error_iff e rangeHost zone).mp h
  · intro s v h hlo hhi
    exact ParseInt_of_decimalValue s.toList v h hlo hhi
  · intro s
    exact (Atoi_error s).1
  · intro s h hlen
    exact ParseInt_of_not_numeric s.toList h hlen
  · intro s h
    exact ParseInt_range_sign s.toList h
  · intro s v h hbig
    exact (ParseInt_of_decimalValue_out s.toList v h).1 hbig
  · intro s v h hsmall
    exact (ParseInt_of_decimalValue_out s.toList v h).2 hsmall

/-- C2 at an input: a CNAME row with the TTL `abc`, an A row, an MX row, a TXT row without
TTL and a second A row, the map ranged over in reverse order; the CNAME and TXT endpoints
are those of the two rows, with TTL 0, and the MX row leaves no endpoint. -/
theorem translate_cname_txt_rows_witness :
    (∀ m : HostMap, (List.reverse m).Perm m)
      ∧ (RecordList.translate List.reverse mixedRows).filter
          (fun ep => isCnameOrTxt ep.RecordType)
        = [{ DNSName := "c.example.com", Targets := ["a.example.com"], RecordType := "CNAME",
             RecordTTL := 0, ProviderSpecific := [] },
           { DNSName := "t.example.com", Targets := ["v=spf1 -all"], RecordType := "TXT",
             RecordTTL := 0, ProviderSpecific := [] }]
      ∧ RecordList.translate List.reverse mixedRows
        = [{ DNSName := "c.example.com", Targets := ["a.example.com"], RecordType := "CNAME",
             RecordTTL := 0, ProviderSpecific := [] },
           { DNSName := "t.example.com", Targets := ["v=spf1 -all"], RecordType := "TXT",
             RecordTTL := 0, ProviderSpecific := [] },
           { DNSName := "a.example.com", Targets := ["1.1.1.1", "2.2.2.2"], RecordType := "A",
             RecordTTL := 300, ProviderSpecific := [] }] :=
  ⟨fun m => List.reverse_perm m,
    (translate_cname_txt_rows List.reverse (fun m => List.reverse_perm m) mixedRows).1,
    by decide⟩

end EfficientIP
